import Mathlib

/-!
Verification of the `mirror` distributed progressive path tracer.

This file shallowly embeds the parts of the Rust sources relevant to the
claims under scrutiny and proves (or refutes) each claim.

Conventions used throughout:
* Rust `usize`, `u16`, `u32`, `u64`, `u128` values are modelled as `Nat`;
  where a machine-width truncation occurs in the source (for example the
  `as u32` cast in `MirrorPacket::write`) the model performs the same
  reduction modulo `2 ^ width` explicitly.
* Rust `f32` pixel/radiance arithmetic is modelled over `ℚ`; clamping and
  the weighted-average formulas are translated verbatim.  For the wire
  codec an `f32` is its 32-bit pattern (a `Nat` below `2 ^ 32`), which is
  exactly what `bincode` reads and writes.
* Fallible operations return `Option` or `Except`.
-/

namespace Mirror

/-! ## Tile partition (src/raytracer/render_backend.rs, render_task)

The scheduler splits the `W × H` framebuffer into tiles of maximal size
`64 × 64`; border tiles are truncated with `min`.  The code is

    let num_width_tiles = image_size.0 / 64 + (image_size.0 % 64 != 0) as usize;
    let num_height_tiles = image_size.1 / 64 + (image_size.1 % 64 != 0) as usize;
    for ty in 0..num_height_tiles {
        let begin_height = ty * 64;
        let tile_height = min(64, image_size.1 - begin_height);
        for tx in 0..num_width_tiles {
            let begin_width = tx * 64;
            let tile_width = min(64, image_size.0 - begin_width);
            work_send_queue.send(TileRenderWork { .. });
        }
    }
-/

/-- Mirrors `TileRenderWork { begin_pos: (usize, usize), tile_size: (usize, usize) }`. -/
structure TileRenderWork where
  begin_pos : Nat × Nat
  tile_size : Nat × Nat
deriving DecidableEq, Repr

/-- Mirrors `len / 64 + (len % 64 != 0) as usize`, the per-axis tile count. -/
def num_axis_tiles (len : Nat) : Nat :=
  len / 64 + (if len % 64 ≠ 0 then 1 else 0)

/-- The tile for grid index `(tx, ty)` over image `(w, h)`, as built in the loop body. -/
def mkTile (w h tx ty : Nat) : TileRenderWork :=
  { begin_pos := (tx * 64, ty * 64),
    tile_size := (min 64 (w - tx * 64), min 64 (h - ty * 64)) }

/-- The list of tile descriptors `render_task` pushes onto the work channel,
in push order (row-major: `ty` outer, `tx` inner). -/
def render_task_tiles (image_size : Nat × Nat) : List TileRenderWork :=
  (List.range (num_axis_tiles image_size.2)).flatMap fun ty =>
    (List.range (num_axis_tiles image_size.1)).map fun tx =>
      mkTile image_size.1 image_size.2 tx ty

/-- Membership of pixel `(x, y)` in the half-open rectangle of a tile descriptor. -/
def inTile (t : TileRenderWork) (x y : Nat) : Prop :=
  t.begin_pos.1 ≤ x ∧ x < t.begin_pos.1 + t.tile_size.1 ∧
  t.begin_pos.2 ≤ y ∧ y < t.begin_pos.2 + t.tile_size.2

instance (t : TileRenderWork) (x y : Nat) : Decidable (inTile t x y) := by
  unfold inTile; infer_instance

/-! ## Accumulated framebuffer and the weighted splice (C1)

The raytracer-side `Image`/`AccumulatedImage` sources are referenced from
`src/raytracer/mod.rs` but the files themselves are not in the tree; only the
earlier top-level `src/image.rs` / `src/accum_image.rs` generation is.
Modelled from the spec: `get(x,y)`, `set(x,y,c)` (clamps to `[0,1]`),
`insert_tile_by(tile, pos, f)` applying `f(current_pixel, new_pixel)` at every
tile position, following the loop structure of `Image::insert_tile` in
`src/image.rs`.  Pixels are `Vec3` of linear-luminance values; the flat
`f32` array indexed by `y * W * 3 + x * 3 + c` is abstracted to a
pixel-indexed map and `f32` arithmetic to `ℚ`. -/

/-- Pixel value: mirrors `glam::Vec3` with `ℚ` components. -/
structure Vec3q where
  x : ℚ
  y : ℚ
  z : ℚ
deriving DecidableEq, Repr

/-- Componentwise vector addition. -/
def v3add (a b : Vec3q) : Vec3q := ⟨a.x + b.x, a.y + b.y, a.z + b.z⟩

/-- Scalar multiplication (mirrors `Vec3 * f32`). -/
def v3smul (s : ℚ) (a : Vec3q) : Vec3q := ⟨a.x * s, a.y * s, a.z * s⟩

/-- Mirrors Rust `v.clamp(0.0, 1.0)` on each call inside `Image::set`. -/
def clamp01 (v : ℚ) : ℚ := min (max v 0) 1

/-- Componentwise clamping, as in `Image::set`. -/
def v3clamp (a : Vec3q) : Vec3q := ⟨clamp01 a.x, clamp01 a.y, clamp01 a.z⟩

/-- All three components lie in `[0, 1]`. -/
def inRange01 (a : Vec3q) : Prop :=
  0 ≤ a.x ∧ a.x ≤ 1 ∧ 0 ≤ a.y ∧ a.y ≤ 1 ∧ 0 ≤ a.z ∧ a.z ≤ 1

/-- Framebuffer / tile image: a size and a pixel map. -/
structure Image where
  width : Nat
  height : Nat
  pix : Nat → Nat → Vec3q

/-- Mirrors `Image::get`. -/
def Image.get (img : Image) (x y : Nat) : Vec3q := img.pix x y

/-- Mirrors `Image::set`: stores the clamped value at `(x, y)`. -/
def Image.set (img : Image) (x y : Nat) (v : Vec3q) : Image :=
  { img with pix := fun a b => if (a, b) = (x, y) then v3clamp v else img.pix a b }

/-- Inner loop of `insert_tile_by`: writes row `ty`, columns `tx < n`. -/
def insertRow (tile : Image) (pos : Nat × Nat) (f : Vec3q → Vec3q → Vec3q)
    (ty n : Nat) (im : Image) : Image :=
  (List.range n).foldl (fun im2 tx =>
    im2.set (pos.1 + tx) (pos.2 + ty)
      (f (im2.get (pos.1 + tx) (pos.2 + ty)) (tile.get tx ty))) im

/-- Mirrors `insert_tile_by(tile, pos, f)`: for every tile coordinate
`(tx, ty)` writes `f(current, tile.get(tx, ty))` at `(pos.1 + tx, pos.2 + ty)`,
rows outer and columns inner as in `Image::insert_tile`. -/
def Image.insert_tile_by (img : Image) (tile : Image) (pos : Nat × Nat)
    (f : Vec3q → Vec3q → Vec3q) : Image :=
  (List.range tile.height).foldl (fun im ty => insertRow tile pos f ty tile.width im) img

/-- Mirrors `AccumulatedImage`: an image plus the shared sample counter. -/
structure AccumulatedImage where
  times_sampled : Nat
  image : Image

/-- The splice loop every worker runs over its private `rendered_tiles` list
at the end of `local_render_tile_task` / `remote_render_tile_task`. -/
def splice_rendered (img : Image) (rts : List ((Nat × Nat) × Image))
    (f : Vec3q → Vec3q → Vec3q) : Image :=
  rts.foldl (fun im pt => im.insert_tile_by pt.2 pt.1 f) img

/-- The tile a worker produces for descriptor `t` when the kernel's per-pixel
average at absolute pixel `(x, y)` is `k x y`; `render_tile` writes each pixel
with `Tile::set`, which clamps. -/
def renderedTile (k : Nat → Nat → Vec3q) (t : TileRenderWork) : Image :=
  { width := t.tile_size.1, height := t.tile_size.2,
    pix := fun u v => v3clamp (k (t.begin_pos.1 + u) (t.begin_pos.2 + v)) }

/-- One full render pass of `render_task` with kernel averages `k` and
`samples_per_pixel = spp`, sequentialized: partition into tiles, render each,
splice all results with the weights computed from the prior counter
(`sampled_weight = times_sampled / total`, `new_sample_weight = spp / total`),
then `times_sampled += spp`. -/
def render_pass (acc : AccumulatedImage) (k : Nat → Nat → Vec3q) (spp : Nat) :
    AccumulatedImage :=
  let total_samples : Nat := spp + acc.times_sampled
  let sampled_weight : ℚ := (acc.times_sampled : ℚ) / (total_samples : ℚ)
  let new_sample_weight : ℚ := (spp : ℚ) / (total_samples : ℚ)
  let tiles := render_task_tiles (acc.image.width, acc.image.height)
  let rendered := tiles.map fun t => (t.begin_pos, renderedTile k t)
  { times_sampled := acc.times_sampled + spp,
    image := splice_rendered acc.image rendered
      (fun c n => v3add (v3smul sampled_weight c) (v3smul new_sample_weight n)) }

/-- Region of the framebuffer a spliced `(pos, tile)` pair writes. -/
def coversPix (pt : (Nat × Nat) × Image) (a b : Nat) : Prop :=
  pt.1.1 ≤ a ∧ a < pt.1.1 + pt.2.width ∧ pt.1.2 ≤ b ∧ b < pt.1.2 + pt.2.height

instance (pt : (Nat × Nat) × Image) (a b : Nat) : Decidable (coversPix pt a b) := by
  unfold coversPix; infer_instance

lemma Image.get_set (img : Image) (x y a b : Nat) (v : Vec3q) :
    (img.set x y v).get a b = if (a, b) = (x, y) then v3clamp v else img.get a b := rfl

lemma insertRow_get (tile : Image) (pos : Nat × Nat) (f : Vec3q → Vec3q → Vec3q)
    (ty : Nat) : ∀ (n : Nat) (im : Image) (a b : Nat),
    (insertRow tile pos f ty n im).get a b =
      if b = pos.2 + ty ∧ pos.1 ≤ a ∧ a < pos.1 + n
      then v3clamp (f (im.get a b) (tile.get (a - pos.1) ty))
      else im.get a b := by
  intro n
  induction n with
  | zero =>
    intro im a b
    rw [insertRow, List.range_zero, List.foldl_nil, if_neg (by omega)]
  | succ m ih =>
    intro im a b
    unfold insertRow at ih ⊢
    rw [List.range_succ, List.foldl_append, List.foldl_cons, List.foldl_nil, Image.get_set]
    by_cases hab : (a, b) = (pos.1 + m, pos.2 + ty)
    · have ha : a = pos.1 + m := congrArg Prod.fst hab
      have hb : b = pos.2 + ty := congrArg Prod.snd hab
      subst ha
      subst hb
      rw [if_pos hab, ih im (pos.1 + m) (pos.2 + ty)]
      have hm : ¬ (pos.2 + ty = pos.2 + ty ∧ pos.1 ≤ pos.1 + m ∧ pos.1 + m < pos.1 + m) := by
        omega
      have hs : pos.2 + ty = pos.2 + ty ∧ pos.1 ≤ pos.1 + m ∧ pos.1 + m < pos.1 + (m + 1) := by
        omega
      rw [if_neg hm, if_pos hs, show pos.1 + m - pos.1 = m from by omega]
    · have hab2 : ¬ (a = pos.1 + m ∧ b = pos.2 + ty) := by
        rintro ⟨u, v⟩
        exact hab (by rw [u, v])
      rw [if_neg hab, ih im a b]
      by_cases hc : b = pos.2 + ty ∧ pos.1 ≤ a ∧ a < pos.1 + m
      · rw [if_pos hc, if_pos (by omega)]
      · rw [if_neg hc, if_neg (by omega)]

lemma Image.insert_tile_by_get (img tile : Image) (pos : Nat × Nat)
    (f : Vec3q → Vec3q → Vec3q) (a b : Nat) :
    (img.insert_tile_by tile pos f).get a b =
      if coversPix (pos, tile) a b
      then v3clamp (f (img.get a b) (tile.get (a - pos.1) (b - pos.2)))
      else img.get a b := by
  unfold Image.insert_tile_by coversPix
  simp only
  have main : ∀ (n : Nat) (im : Image),
      ((List.range n).foldl (fun im ty => insertRow tile pos f ty tile.width im) im).get a b =
        if pos.1 ≤ a ∧ a < pos.1 + tile.width ∧ pos.2 ≤ b ∧ b < pos.2 + n
        then v3clamp (f (im.get a b) (tile.get (a - pos.1) (b - pos.2)))
        else im.get a b := by
    intro n
    induction n with
    | zero =>
      intro im
      rw [List.range_zero, List.foldl_nil, if_neg (by omega)]
    | succ m ih =>
      intro im
      rw [List.range_succ, List.foldl_append, List.foldl_cons, List.foldl_nil]
      rw [insertRow_get, ih]
      by_cases hrow : b = pos.2 + m ∧ pos.1 ≤ a ∧ a < pos.1 + tile.width
      · rw [if_pos hrow, if_neg (by omega), if_pos (by omega),
          show b - pos.2 = m from by omega]
      · rw [if_neg hrow]
        by_cases hc : pos.1 ≤ a ∧ a < pos.1 + tile.width ∧ pos.2 ≤ b ∧ b < pos.2 + m
        · rw [if_pos hc, if_pos (by omega)]
        · rw [if_neg hc, if_neg (by omega)]
  exact main tile.height img

lemma splice_rendered_cons (img : Image) (pt : (Nat × Nat) × Image)
    (l : List ((Nat × Nat) × Image)) (f : Vec3q → Vec3q → Vec3q) :
    splice_rendered img (pt :: l) f =
      splice_rendered (img.insert_tile_by pt.2 pt.1 f) l f := rfl

lemma splice_rendered_append (img : Image) (l₁ l₂ : List ((Nat × Nat) × Image))
    (f : Vec3q → Vec3q → Vec3q) :
    splice_rendered img (l₁ ++ l₂) f = splice_rendered (splice_rendered img l₁ f) l₂ f := by
  simp [splice_rendered, List.foldl_append]

lemma splice_rendered_get_notin (rts : List ((Nat × Nat) × Image))
    (f : Vec3q → Vec3q → Vec3q) (a b : Nat)
    (h : ∀ pt ∈ rts, ¬ coversPix pt a b) : ∀ (img : Image),
    (splice_rendered img rts f).get a b = img.get a b := by
  induction rts with
  | nil => intro img; rfl
  | cons pt rest ih =>
    intro img
    rw [splice_rendered_cons, ih (fun q hq => h q (List.mem_cons_of_mem pt hq)),
      Image.insert_tile_by_get]
    have hnc : ¬ coversPix (pt.1, pt.2) a b := h pt (List.mem_cons_self pt rest)
    rw [if_neg hnc]

lemma splice_rendered_get_split (l₁ l₂ : List ((Nat × Nat) × Image))
    (pt : (Nat × Nat) × Image) (f : Vec3q → Vec3q → Vec3q) (a b : Nat) (img : Image)
    (h₁ : ∀ q ∈ l₁, ¬ coversPix q a b) (h₂ : ∀ q ∈ l₂, ¬ coversPix q a b)
    (hpt : coversPix pt a b) :
    (splice_rendered img (l₁ ++ pt :: l₂) f).get a b =
      v3clamp (f (img.get a b) (pt.2.get (a - pt.1.1) (b - pt.1.2))) := by
  rw [splice_rendered_append, splice_rendered_cons,
    splice_rendered_get_notin l₂ f a b h₂, Image.insert_tile_by_get]
  have hc : coversPix (pt.1, pt.2) a b := hpt
  rw [if_pos hc, splice_rendered_get_notin l₁ f a b h₁ img]

/-! ## Scheduler size precondition (C9)

Mirrors `assert!(image_size.0 >= RENDER_TILE_MAX_SIZE.0 && image_size.1 >=
RENDER_TILE_MAX_SIZE.1)` with `RENDER_TILE_MAX_SIZE = (64, 64)` at the top of
`render_task`. -/

/-- The boolean the scheduler asserts on before doing anything else. -/
def render_task_size_assert (image_size : Nat × Nat) : Bool :=
  decide (64 ≤ image_size.1) && decide (64 ≤ image_size.2)

/-! ## Render-info aggregation (C5)

Mirrors `RenderInfo` and `RenderInfo::merge` from
`src/raytracer/render_backend.rs`.  `usize`/`u128` fields become `Nat`; `/` is
the truncating integer division of `u128` (the claim restricts attention to
non-zero sample counts, so the division-by-zero panic never fires at the
inputs considered). -/

/-- Mirrors `RenderInfo` (times in milliseconds). -/
structure RenderInfo where
  total_samples : Nat
  total_time : Nat
  last_samples : Nat
  last_time : Nat
  total_avg_time_per_sample : Nat
  last_avg_time_per_sample : Nat
deriving DecidableEq, Repr

/-- Mirrors `RenderInfo::merge` statement by statement.  The source assigns
`self.total_avg_time_per_sample` twice in a row — the first assignment
(`_a1`, computed from the `total_*` sums) is dead, the second (computed from
the `last_*` sums) is the one that sticks — and never assigns
`self.last_avg_time_per_sample`, which therefore keeps its old value. -/
def RenderInfo.merge (self new : RenderInfo) : RenderInfo :=
  let _a1 := (self.total_time + new.total_time) / (self.total_samples + new.total_samples)
  let a2 := (self.last_time + new.last_time) / (self.last_samples + new.last_samples)
  { total_avg_time_per_sample := a2,
    total_samples := self.total_samples + new.total_samples,
    total_time := self.total_time + new.total_time,
    last_samples := new.last_samples,
    last_time := new.last_time,
    last_avg_time_per_sample := self.last_avg_time_per_sample }

/-! ## Socket addresses and configuration (C7)

`SocketAddr` is the standard library type; only its value identity and its
wire encoding matter here.  `SocketAddrV6` also carries `flowinfo` and
`scope_id`, which the wire codec does not transmit; they are omitted. -/

/-- Socket address: four IPv4 octets or sixteen IPv6 octets, plus a port. -/
inductive SockAddr where
  | v4 (a b c d : Nat) (port : Nat)
  | v6 (octets : List Nat) (port : Nat)
deriving DecidableEq, Repr

/-- Mirrors `default_host()`: `SocketAddr::from_str("0.0.0.0:2020")`. -/
def default_host : SockAddr := .v4 0 0 0 0 2020

/-- Mirrors `struct Config` from `src/config.rs`. -/
structure Config where
  host : SockAddr
  bootstrap_peers : List SockAddr
deriving DecidableEq, Repr

/-- Mirrors `enum ConfigError { Io(..), Toml(..) }` (payloads reduced to the
message text). -/
inductive ConfigError where
  | ioError (msg : String)
  | tomlError (msg : String)
deriving DecidableEq, Repr

/-- Mirrors the outcome of `toml::from_str::<Config>` on a document holding
the two recognized keys, as fixed by the derive on `Config`: `host` carries
`#[serde(default = "default_host")]`, so an absent `host` key falls back to
`default_host()`; `bootstrap_peers` carries no default, so an absent
`bootstrap_peers` key is a missing-field deserialization error. -/
def Config.from_toml_fields (host : Option SockAddr)
    (bootstrap_peers : Option (List SockAddr)) : Except ConfigError Config :=
  match bootstrap_peers with
  | none => .error (.tomlError "missing field bootstrap_peers")
  | some bp => .ok { host := host.getD default_host, bootstrap_peers := bp }

/-! ## Peer session packet handling (C8)

Mirrors the `'outer` read loop of `peer_task` in `src/protocol/peer.rs`
(which matches on the generation of `MirrorPacket` with a single-tile
`RenderTileRequest { begin_pos, tile_size, image_size, samples_per_pixel }`
and `RenderTileResponse(tile)`).  The scene and tile types and the rendering
kernel are the session's collaborators and stay abstract. -/

/-- The inbound packets the session loop matches on. -/
inductive SessionPacket (σ τ : Type) where
  | hello (name : Option String) (listen_port : Nat)
  | gossipPeers (peers : List SockAddr)
  | syncScene (scene : σ)
  | renderTileRequest (begin_pos tile_size image_size : Nat × Nat)
      (samples_per_pixel : Nat)
  | renderTileResponse (tile : τ)

/-- Result of handling one inbound packet: the updated session-local scene,
the packets written back to the peer, the tiles pushed onto the session's
`tile_send_queue`, the addresses handed to `connect_to_peers`, whether a
warning was logged, and whether the loop continues. -/
structure SessionStep (σ τ : Type) where
  scene : Option σ
  sent : List (SessionPacket σ τ)
  pushed : List τ
  dialed : List SockAddr
  warned : Bool
  continues : Bool

/-- One iteration of the session read loop on a successfully decoded packet,
arm by arm from `peer_task`:
`Hello` warns and continues; `GossipPeers` dials the listed addresses;
`SyncScene` replaces the session-local scene; `RenderTileRequest` warns and
continues without replying when no scene has been synced, otherwise renders
and replies with `RenderTileResponse`; `RenderTileResponse` is pushed onto
the per-peer response queue. -/
def peer_session_handle {σ τ : Type}
    (render_tile : σ → Nat → (Nat × Nat) → (Nat × Nat) → (Nat × Nat) → τ)
    (scene : Option σ) (pkt : SessionPacket σ τ) : SessionStep σ τ :=
  match pkt with
  | .hello _ _ => ⟨scene, [], [], [], true, true⟩
  | .gossipPeers new_peers => ⟨scene, [], [], new_peers, false, true⟩
  | .syncScene received_scene => ⟨some received_scene, [], [], [], false, true⟩
  | .renderTileRequest begin_pos tile_size image_size samples_per_pixel =>
    match scene with
    | none => ⟨none, [], [], [], true, true⟩
    | some s =>
      ⟨some s,
        [SessionPacket.renderTileResponse
          (render_tile s samples_per_pixel begin_pos tile_size image_size)],
        [], [], false, true⟩
  | .renderTileResponse tile => ⟨scene, [], [tile], [], false, true⟩

/-! ## Bounded-depth path tracing (C10)

Mirrors `Renderer::trace` from `src/raytracer/renderer.rs`.  The geometric
queries (`scene.hit`), material sampling (`material.scatter`, which draws
from a thread-local RNG) and emission are the recursion's collaborators and
are abstracted into a `TraceWorld` record of oracles; radiance values are
`Vec3q`.  What remains is exactly the recursion structure of the source. -/

/-- Componentwise vector product (mirrors `Vec3 * Vec3`). -/
def v3mul (a b : Vec3q) : Vec3q := ⟨a.x * b.x, a.y * b.y, a.z * b.z⟩

/-- Mirrors `ScatteredRay { ray, attenuation }`. -/
structure ScatteredRay (ρ : Type) where
  ray : ρ
  attenuation : Vec3q

/-- The collaborators `trace` calls into: `scene.hit`, `hit.material.scatter`
(RNG draws fixed by the oracle), `hit.material.emission`, `scene.background`. -/
structure TraceWorld (ρ η : Type) where
  hit : ρ → Option η
  scatter : ρ → η → Option (ScatteredRay ρ)
  emission : η → Vec3q
  background : Vec3q

/-- Mirrors `Renderer::trace`: zero radiance at depth 0; background on a miss;
emission on an absorbed scatter; otherwise `attenuation * trace(scattered,
depth - 1) + emission`. -/
def Renderer.trace {ρ η : Type} (w : TraceWorld ρ η) (ray : ρ) (depth : Nat) : Vec3q :=
  match depth with
  | 0 => ⟨0, 0, 0⟩
  | d + 1 =>
    match w.hit ray with
    | none => w.background
    | some h =>
      match w.scatter ray h with
      | none => w.emission h
      | some scattered =>
        v3add (v3mul scattered.attenuation (Renderer.trace w scattered.ray d)) (w.emission h)

/-- Number of recursive `trace` invocations made below the given call,
following the same branch structure. -/
def Renderer.trace_calls {ρ η : Type} (w : TraceWorld ρ η) (ray : ρ) (depth : Nat) : Nat :=
  match depth with
  | 0 => 0
  | d + 1 =>
    match w.hit ray with
    | none => 0
    | some h =>
      match w.scatter ray h with
      | none => 0
      | some scattered => 1 + Renderer.trace_calls w scattered.ray d

/-! ## Peer table registration protocol (C6)

Mirrors the table-mutating critical sections of `src/protocol/peer.rs`.  The
table is `HashMap<SocketAddr, Peer>` behind one `RwLock`; here it is the list
of its entries (insertion appends; `remove` filters).  A peer entry's
`write_socket` and `tile_recv_queue` handles do not affect key identity and
are dropped from the model. -/

/-- Mirrors `Peer` (handles abstracted away). -/
structure Peer where
  name : Option String
deriving DecidableEq, Repr

/-- Mirrors `HashMap::contains_key`. -/
def containsKey (t : List (SockAddr × Peer)) (a : SockAddr) : Bool :=
  t.any fun e => e.1 = a

/-- The port of a socket address (`SocketAddr::port`). -/
def SockAddr.port : SockAddr → Nat
  | .v4 _ _ _ _ p => p
  | .v6 _ p => p

/-- The address `connect_to_peers` refuses to dial: it is built as
`SocketAddr::from_str("127.0.0.1:" + listen_port)` — loopback is hardcoded
(the source marks it FIXME), whatever address the node actually listens
on. -/
def hardcoded_self (listen_port : Nat) : SockAddr := .v4 127 0 0 1 listen_port

/-- The registration critical section of `peer_task` (everything between
taking the peer-table write lock and releasing it): refuse a self connection
(`peer_listen_address == local_listen_address`), refuse a duplicate
(`contains_key`), otherwise insert the entry.  Returns the table afterwards
and whether the handshake was accepted. -/
def register_peer (t : List (SockAddr × Peer))
    (peer_listen_address local_listen_address : SockAddr) (p : Peer) :
    List (SockAddr × Peer) × Bool :=
  if peer_listen_address = local_listen_address then (t, false)
  else if containsKey t peer_listen_address then (t, false)
  else (t ++ [(peer_listen_address, p)], true)

/-- The table mutations any interleaving of session tasks and the connector
can perform, serialized by the write lock.  `self` is this node's own
listen-address.
* `inbound`: `peer_task` on an accepted stream — the accepted socket's local
  address is the node's listen address, so the registration's self-check
  compares against `self` itself;
* `outbound`: `peer_task` on a dialed stream — before dialing,
  `connect_to_peers` refused only the hardcoded `127.0.0.1:listen_port`
  (hypothesis `hne`), not the node's actual listen address, and the
  registration's own self-check sees only the socket's ephemeral local
  address `eph`;
* `disconnect`: the `Closing` path removes the session's key. -/
inductive PeerStep (self : SockAddr) :
    List (SockAddr × Peer) → List (SockAddr × Peer) → Prop where
  | inbound (t : List (SockAddr × Peer)) (a : SockAddr) (p : Peer) :
      PeerStep self t (register_peer t a self p).1
  | outbound (t : List (SockAddr × Peer)) (a eph : SockAddr) (p : Peer)
      (hne : a ≠ hardcoded_self self.port) :
      PeerStep self t (register_peer t a eph p).1
  | disconnect (t : List (SockAddr × Peer)) (a : SockAddr) :
      PeerStep self t (t.filter fun e => ¬ e.1 = a)

/-- Tables reachable from the empty table at node start. -/
inductive PeerReachable (self : SockAddr) : List (SockAddr × Peer) → Prop where
  | start : PeerReachable self []
  | step {t t' : List (SockAddr × Peer)} :
      PeerReachable self t → PeerStep self t t' → PeerReachable self t'

/-! ## Scheduler work accounting (C2)

Mirrors the concurrent tile dispatch of `render_task` with
`local_render_tile_task` and `remote_render_tile_task`
(src/raytracer/render_backend.rs): an unbounded MPMC channel of descriptors,
an atomic `remaining_tiles` counter, and one state per worker task.  Each
transition is one shared-memory/channel operation of the source, interleaved
arbitrarily; per-worker pure computation (rendering) happens between
transitions and is irrelevant to the accounting.  Tiles are values of an
arbitrary type `α`. -/

/-- Worker flavour: a local CPU task or a per-peer remote task. -/
inductive WKind where
  | localW
  | remoteW
deriving DecidableEq, Repr

/-- A worker's position in its loop:
`idle` — about to `recv`, with `buf` its private `rendered_tiles`;
`held` — holding received but unacknowledged work (a local worker holds one
descriptor, a remote worker a batch);
`exited` — out of the loop (its `buf` still gets spliced);
`panicked` — died on `send(..).unwrap()` over a closed channel, `buf` lost. -/
inductive WState (α : Type) where
  | idle (buf : List α)
  | held (batch : List α) (buf : List α)
  | exited (buf : List α)
  | panicked
deriving DecidableEq

/-- A worker task. -/
structure Worker (α : Type) where
  kind : WKind
  st : WState α
deriving DecidableEq

/-- The shared state: channel contents and closed flag, how often `close()`
was invoked, the `remaining_tiles` counter, and the workers. -/
structure Sched (α : Type) where
  queue : List α
  closed : Bool
  closeCount : Nat
  remaining : Nat
  workers : List (Worker α)

/-- The state after `render_task` filled the queue and spawned the workers. -/
def schedInit {α : Type} (init : List α) (kinds : List WKind) : Sched α :=
  { queue := init, closed := false, closeCount := 0, remaining := init.length,
    workers := kinds.map fun k => ⟨k, .idle []⟩ }

/-- Mirrors `if remaining_tiles.fetch_sub(n, Relaxed) <= n { work_send_queue.close(); }`:
the decrement and the conditional close, with every `close()` call counted. -/
def ackClose {α : Type} (s : Sched α) (n : Nat) : Sched α :=
  { s with remaining := s.remaining - n,
           closed := s.closed || decide (s.remaining ≤ n),
           closeCount := s.closeCount + (if s.remaining ≤ n then 1 else 0) }

/-- One interleaved step of the worker pool.  The active worker is singled
out by decomposing the worker list as `ws₁ ++ w :: ws₂`. -/
inductive SchedStep {α : Type} : Sched α → Sched α → Prop where
  | recvLocal (s : Sched α) (ws₁ ws₂ : List (Worker α)) (buf q' : List α) (w : α)
      (hws : s.workers = ws₁ ++ ⟨.localW, .idle buf⟩ :: ws₂)
      (hq : s.queue = w :: q') :
      SchedStep s { s with queue := q',
                           workers := ws₁ ++ ⟨.localW, .held [w] buf⟩ :: ws₂ }
  | ackLocal (s : Sched α) (ws₁ ws₂ : List (Worker α)) (buf : List α) (w : α)
      (hws : s.workers = ws₁ ++ ⟨.localW, .held [w] buf⟩ :: ws₂) :
      SchedStep s (ackClose
        { s with workers := ws₁ ++ ⟨.localW, .idle (buf ++ [w])⟩ :: ws₂ } 1)
  | recvRemote (s : Sched α) (ws₁ ws₂ : List (Worker α)) (buf q₁ q₂ : List α) (w : α)
      (hws : s.workers = ws₁ ++ ⟨.remoteW, .idle buf⟩ :: ws₂)
      (hq : s.queue = (w :: q₁) ++ q₂) (hlen : (w :: q₁).length ≤ 8) :
      SchedStep s { s with queue := q₂,
                           workers := ws₁ ++ ⟨.remoteW, .held (w :: q₁) buf⟩ :: ws₂ }
  | batchDropped (s : Sched α) (ws₁ ws₂ : List (Worker α)) (buf q₁ : List α) (w : α)
      (hws : s.workers = ws₁ ++ ⟨.remoteW, .idle buf⟩ :: ws₂)
      (hq : s.queue = w :: q₁) (hlen : (w :: q₁).length < 8) (hc : s.closed = true) :
      SchedStep s { s with queue := [],
                           workers := ws₁ ++ ⟨.remoteW, .exited buf⟩ :: ws₂ }
  | sendFail (s : Sched α) (ws₁ ws₂ : List (Worker α)) (B buf : List α)
      (hws : s.workers = ws₁ ++ ⟨.remoteW, .held B buf⟩ :: ws₂)
      (hc : s.closed = false) :
      SchedStep s { s with queue := s.queue ++ B,
                           workers := ws₁ ++ ⟨.remoteW, .exited buf⟩ :: ws₂ }
  | sendFailPanic (s : Sched α) (ws₁ ws₂ : List (Worker α)) (B buf : List α)
      (hws : s.workers = ws₁ ++ ⟨.remoteW, .held B buf⟩ :: ws₂)
      (hc : s.closed = true) (hB : B ≠ []) :
      SchedStep s { s with workers := ws₁ ++ ⟨.remoteW, .panicked⟩ :: ws₂ }
  | ackRemote (s : Sched α) (ws₁ ws₂ : List (Worker α)) (B buf : List α)
      (hws : s.workers = ws₁ ++ ⟨.remoteW, .held B buf⟩ :: ws₂) :
      SchedStep s (ackClose
        { s with workers := ws₁ ++ ⟨.remoteW, .idle (buf ++ B)⟩ :: ws₂ } B.length)
  | recvClosed (s : Sched α) (ws₁ ws₂ : List (Worker α)) (buf : List α) (k : WKind)
      (hws : s.workers = ws₁ ++ ⟨k, .idle buf⟩ :: ws₂)
      (hq : s.queue = []) (hc : s.closed = true) :
      SchedStep s { s with workers := ws₁ ++ ⟨k, .exited buf⟩ :: ws₂ }
  | remoteSyncFail (s : Sched α) (ws₁ ws₂ : List (Worker α))
      (hws : s.workers = ws₁ ++ ⟨.remoteW, .idle []⟩ :: ws₂) :
      SchedStep s { s with workers := ws₁ ++ ⟨.remoteW, .exited []⟩ :: ws₂ }

/-- States reachable from the spawn point under any interleaving. -/
inductive SchedReachable {α : Type} (init : List α) (kinds : List WKind) :
    Sched α → Prop where
  | start : SchedReachable init kinds (schedInit init kinds)
  | step {s s' : Sched α} :
      SchedReachable init kinds s → SchedStep s s' → SchedReachable init kinds s'

/-- Unacknowledged work a worker holds. -/
def wbatch {α : Type} : WState α → List α
  | .held B _ => B
  | _ => []

/-- The private `rendered_tiles` buffer a worker will splice. -/
def wbuf {α : Type} : WState α → List α
  | .idle b => b
  | .held _ b => b
  | .exited b => b
  | .panicked => []

/-- Held and buffered tiles of a worker list, as a multiset. -/
def tileSumL {α : Type} (ws : List (Worker α)) : Multiset α :=
  (ws.map fun w => ((wbatch w.st : List α) : Multiset α) + (wbuf w.st : Multiset α)).sum

/-- Number of held (received but unacknowledged) tiles of a worker list. -/
def heldCountL {α : Type} (ws : List (Worker α)) : Nat :=
  (ws.map fun w => (wbatch w.st).length).sum

/-- Buffered tiles of a worker list, as a multiset. -/
def bufSumL {α : Type} (ws : List (Worker α)) : Multiset α :=
  (ws.map fun w => (wbuf w.st : Multiset α)).sum

/-- Every tile in the system, as a multiset: still queued, held, or buffered. -/
def tilesOf {α : Type} (s : Sched α) : Multiset α :=
  (s.queue : Multiset α) + tileSumL s.workers

/-- Total number of held tiles. -/
def heldCount {α : Type} (s : Sched α) : Nat :=
  heldCountL s.workers

/-- The tiles that will be spliced: the union of all private buffers. -/
def splicedTiles {α : Type} (s : Sched α) : Multiset α :=
  bufSumL s.workers

/-- Every worker has left its loop. -/
def allExited {α : Type} (s : Sched α) : Prop :=
  ∀ w ∈ s.workers, ∃ buf, w.st = WState.exited buf

/-- The inductive invariant of the dispatch loop: tile conservation, the
counter counts exactly the queued plus held tiles, the channel closes only at
zero with exactly one `close()` call, no worker panics, and a local worker
leaves its loop only after the close. -/
def SchedInv {α : Type} (init : List α) (kinds : List WKind) (s : Sched α) : Prop :=
  tilesOf s = (init : Multiset α) ∧
  s.remaining = s.queue.length + heldCount s ∧
  (s.closed = true → s.remaining = 0) ∧
  (s.closed = false → s.closeCount = 0) ∧
  (s.closed = true → s.closeCount = 1) ∧
  (∀ w ∈ s.workers, w.st ≠ WState.panicked) ∧
  (∀ w ∈ s.workers, w.kind = WKind.localW →
    ∀ buf, w.st = WState.exited buf → s.closed = true) ∧
  s.workers.map (fun w => w.kind) = kinds ∧
  (∀ w ∈ s.workers, ∀ buf, w.st ≠ WState.held [] buf)

/-! ## Framed packet codec (C4)

Mirrors `MirrorPacket::write` / `MirrorPacket::read` from
`src/protocol/packet.rs` together with the `bincode` 2 `config::standard()`
encoding (little-endian, variable-length integers) of the packet type and
everything `SyncScene` transitively carries (src/raytracer/scene.rs,
camera.rs, material.rs, bvh.rs, aabb.rs; `Tile = Image` as in
src/image.rs).  Bytes are `Nat` values below 256 by construction; an `f32`
is its 32-bit pattern, which is all the codec reads or writes; a Rust
`String` is its UTF-8 byte list (the decoder's UTF-8 validation always
succeeds on bytes produced from a `String` and is not modelled);
`Arc<T>` encodes as `T`.  `bincode`'s varint scheme writes a value below 251
as a single byte and otherwise a marker byte 251/252/253/254 followed by the
little-endian `u16`/`u32`/`u64`/`u128`; enum discriminants are `u32`
varints in declaration order; sequences are a `u64` length then the
elements; `Option` is a `0`/`1` byte then the payload; `SocketAddr` is the
`V4`/`V6` discriminant, the raw 4/16 address octets, then the port. -/

/-- Little-endian byte expansion, `k` bytes. -/
def leBytes : Nat → Nat → List Nat
  | 0, _ => []
  | k + 1, n => n % 256 :: leBytes k (n / 256)

/-- Reads `k` little-endian bytes. -/
def takeLE : Nat → List Nat → Option (Nat × List Nat)
  | 0, bs => some (0, bs)
  | _ + 1, [] => none
  | k + 1, b :: bs =>
    match takeLE k bs with
    | none => none
    | some (v, rest) => some (b + 256 * v, rest)

/-- Reads `k` raw bytes. -/
def takeBytes : Nat → List Nat → Option (List Nat × List Nat)
  | 0, bs => some ([], bs)
  | _ + 1, [] => none
  | k + 1, b :: bs =>
    match takeBytes k bs with
    | none => none
    | some (v, rest) => some (b :: v, rest)

/-- bincode standard-config varint encoding of an unsigned integer. -/
def encVarint (n : Nat) : List Nat :=
  if n < 251 then [n]
  else if n < 2 ^ 16 then 251 :: leBytes 2 n
  else if n < 2 ^ 32 then 252 :: leBytes 4 n
  else if n < 2 ^ 64 then 253 :: leBytes 8 n
  else 254 :: leBytes 16 n

/-- bincode varint decoding. -/
def decVarint : List Nat → Option (Nat × List Nat)
  | [] => none
  | b :: bs =>
    if b < 251 then some (b, bs)
    else if b = 251 then takeLE 2 bs
    else if b = 252 then takeLE 4 bs
    else if b = 253 then takeLE 8 bs
    else if b = 254 then takeLE 16 bs
    else none

/-- bincode `bool`: one byte, `0` or `1`. -/
def encBool (b : Bool) : List Nat := [if b then 1 else 0]

/-- Decodes a `bool` byte. -/
def decBool : List Nat → Option (Bool × List Nat)
  | [] => none
  | b :: bs =>
    if b = 0 then some (false, bs)
    else if b = 1 then some (true, bs)
    else none

/-- An `f32` is its 4 pattern bytes, little-endian. -/
def encF32 (n : Nat) : List Nat := leBytes 4 n

/-- Decodes an `f32` bit pattern. -/
def decF32 (bs : List Nat) : Option (Nat × List Nat) := takeLE 4 bs

/-- A `glam::Vec3` as three `f32` bit patterns (serde encodes it as a
3-element tuple struct of `f32`s, so 12 bytes under bincode's serde
compatibility). -/
structure Vec3bits where
  x : Nat
  y : Nat
  z : Nat
deriving DecidableEq, Repr

/-- Vec3 encoding: three `f32`s. -/
def encVec3 (v : Vec3bits) : List Nat := encF32 v.x ++ encF32 v.y ++ encF32 v.z

/-- Vec3 decoding. -/
def decVec3 (bs : List Nat) : Option (Vec3bits × List Nat) :=
  match decF32 bs with
  | none => none
  | some (x, bs1) =>
    match decF32 bs1 with
    | none => none
    | some (y, bs2) =>
      match decF32 bs2 with
      | none => none
      | some (z, bs3) => some (⟨x, y, z⟩, bs3)

/-- `Option<T>`: tag byte then payload. -/
def encOpt {A : Type} (encA : A → List Nat) : Option A → List Nat
  | none => [0]
  | some a => 1 :: encA a

/-- Decodes an `Option<T>`. -/
def decOpt {A : Type} (decA : List Nat → Option (A × List Nat)) :
    List Nat → Option (Option A × List Nat)
  | [] => none
  | b :: bs =>
    if b = 0 then some (none, bs)
    else if b = 1 then
      match decA bs with
      | none => none
      | some (a, rest) => some (some a, rest)
    else none

/-- Sequence payload: the concatenated element encodings. -/
def encElems {A : Type} (encA : A → List Nat) (l : List A) : List Nat :=
  (l.map encA).flatten

/-- `Vec<T>` / boxed slices: `u64` varint length then the elements. -/
def encList {A : Type} (encA : A → List Nat) (l : List A) : List Nat :=
  encVarint l.length ++ encElems encA l

/-- Decodes `n` consecutive elements. -/
def decElems {A : Type} (decA : List Nat → Option (A × List Nat)) :
    Nat → List Nat → Option (List A × List Nat)
  | 0, bs => some ([], bs)
  | n + 1, bs =>
    match decA bs with
    | none => none
    | some (a, bs1) =>
      match decElems decA n bs1 with
      | none => none
      | some (l, rest) => some (a :: l, rest)

/-- Decodes a `Vec<T>`. -/
def decList {A : Type} (decA : List Nat → Option (A × List Nat)) (bs : List Nat) :
    Option (List A × List Nat) :=
  match decVarint bs with
  | none => none
  | some (n, bs1) => decElems decA n bs1

/-- `String`: `u64` varint length then the UTF-8 bytes. -/
def encString (s : List Nat) : List Nat := encVarint s.length ++ s

/-- Decodes a `String` (UTF-8 validation elided; it succeeds on encoder
output). -/
def decString (bs : List Nat) : Option (List Nat × List Nat) :=
  match decVarint bs with
  | none => none
  | some (n, bs1) => takeBytes n bs1

/-- `SocketAddr`: `V4`/`V6` discriminant, raw address octets, port. -/
def encSockAddr : SockAddr → List Nat
  | .v4 a b c d port => encVarint 0 ++ [a, b, c, d] ++ encVarint port
  | .v6 octets port => encVarint 1 ++ octets ++ encVarint port

/-- Decodes a `SocketAddr`. -/
def decSockAddr (bs : List Nat) : Option (SockAddr × List Nat) :=
  match decVarint bs with
  | some (0, bs1) =>
    match takeBytes 4 bs1 with
    | some ([a, b, c, d], bs2) =>
      match decVarint bs2 with
      | none => none
      | some (port, rest) => some (.v4 a b c d port, rest)
    | _ => none
  | some (1, bs1) =>
    match takeBytes 16 bs1 with
    | none => none
    | some (octets, bs2) =>
      match decVarint bs2 with
      | none => none
      | some (port, rest) => some (.v6 octets port, rest)
  | _ => none

/-- `TileRenderWork`: four `usize` varints. -/
def encTileRenderWork (t : TileRenderWork) : List Nat :=
  encVarint t.begin_pos.1 ++ encVarint t.begin_pos.2 ++
    encVarint t.tile_size.1 ++ encVarint t.tile_size.2

/-- Decodes a `TileRenderWork`. -/
def decTileRenderWork (bs : List Nat) : Option (TileRenderWork × List Nat) :=
  match decVarint bs with
  | none => none
  | some (bx, bs1) =>
    match decVarint bs1 with
    | none => none
    | some (by_, bs2) =>
      match decVarint bs2 with
      | none => none
      | some (tw, bs3) =>
        match decVarint bs3 with
        | none => none
        | some (th, rest) => some (⟨(bx, by_), (tw, th)⟩, rest)

/-- `Tile = Image { extent: (usize, usize), data: Box<[f32]> }` at the bit
level. -/
structure ImageBits where
  extent : Nat × Nat
  data : List Nat
deriving DecidableEq, Repr

/-- Image encoding: the two extents, then the boxed `f32` slice. -/
def encImageBits (i : ImageBits) : List Nat :=
  encVarint i.extent.1 ++ encVarint i.extent.2 ++
    encVarint i.data.length ++ encElems encF32 i.data

/-- Decodes an `Image`. -/
def decImageBits (bs : List Nat) : Option (ImageBits × List Nat) :=
  match decVarint bs with
  | none => none
  | some (w, bs1) =>
    match decVarint bs1 with
    | none => none
    | some (h, bs2) =>
      match decList decF32 bs2 with
      | none => none
      | some (data, rest) => some (⟨(w, h), data⟩, rest)

/-- Mirrors `Aabb { min_position, max_position }` (both serde `Vec3`s). -/
structure Aabb where
  min_position : Vec3bits
  max_position : Vec3bits
deriving DecidableEq, Repr

/-- Aabb encoding. -/
def encAabb (a : Aabb) : List Nat := encVec3 a.min_position ++ encVec3 a.max_position

/-- Decodes an `Aabb`. -/
def decAabb (bs : List Nat) : Option (Aabb × List Nat) :=
  match decVec3 bs with
  | none => none
  | some (mn, bs1) =>
    match decVec3 bs1 with
    | none => none
    | some (mx, rest) => some (⟨mn, mx⟩, rest)

/-- Mirrors `enum Material` (f32 fields as bit patterns). -/
inductive Material where
  | DiffuseLight (emission : Vec3bits)
  | Diffuse (albedo : Vec3bits)
  | Metalic (albedo : Vec3bits) (fuzzyness : Nat)
  | Dielectric (refraction_index : Nat)
deriving DecidableEq, Repr

/-- Material encoding: `u32` discriminant then the fields in order. -/
def encMaterial : Material → List Nat
  | .DiffuseLight e => encVarint 0 ++ encVec3 e
  | .Diffuse a => encVarint 1 ++ encVec3 a
  | .Metalic a f => encVarint 2 ++ encVec3 a ++ encF32 f
  | .Dielectric ri => encVarint 3 ++ encF32 ri

/-- Decodes a `Material`. -/
def decMaterial (bs : List Nat) : Option (Material × List Nat) :=
  match decVarint bs with
  | some (0, bs1) =>
    match decVec3 bs1 with
    | none => none
    | some (e, rest) => some (.DiffuseLight e, rest)
  | some (1, bs1) =>
    match decVec3 bs1 with
    | none => none
    | some (a, rest) => some (.Diffuse a, rest)
  | some (2, bs1) =>
    match decVec3 bs1 with
    | none => none
    | some (a, bs2) =>
      match decF32 bs2 with
      | none => none
      | some (f, rest) => some (.Metalic a f, rest)
  | some (3, bs1) =>
    match decF32 bs1 with
    | none => none
    | some (ri, rest) => some (.Dielectric ri, rest)
  | _ => none

/-- Mirrors `enum Geometry`. -/
inductive Geometry where
  | Sphere (position : Vec3bits) (radius : Nat)
  | Quad (position u v : Vec3bits)
  | Cuboid (position size : Vec3bits)
deriving DecidableEq, Repr

/-- Geometry encoding. -/
def encGeometry : Geometry → List Nat
  | .Sphere p r => encVarint 0 ++ encVec3 p ++ encF32 r
  | .Quad p u v => encVarint 1 ++ encVec3 p ++ encVec3 u ++ encVec3 v
  | .Cuboid p s => encVarint 2 ++ encVec3 p ++ encVec3 s

/-- Decodes a `Geometry`. -/
def decGeometry (bs : List Nat) : Option (Geometry × List Nat) :=
  match decVarint bs with
  | some (0, bs1) =>
    match decVec3 bs1 with
    | none => none
    | some (p, bs2) =>
      match decF32 bs2 with
      | none => none
      | some (r, rest) => some (.Sphere p r, rest)
  | some (1, bs1) =>
    match decVec3 bs1 with
    | none => none
    | some (p, bs2) =>
      match decVec3 bs2 with
      | none => none
      | some (u, bs3) =>
        match decVec3 bs3 with
        | none => none
        | some (v, rest) => some (.Quad p u v, rest)
  | some (2, bs1) =>
    match decVec3 bs1 with
    | none => none
    | some (p, bs2) =>
      match decVec3 bs2 with
      | none => none
      | some (s, rest) => some (.Cuboid p s, rest)
  | _ => none

/-- Mirrors `Model { geometry, material: Arc<Material> }`. -/
structure Model where
  geometry : Geometry
  material : Material
deriving DecidableEq, Repr

/-- Model encoding: the two fields in order. -/
def encModel (m : Model) : List Nat := encGeometry m.geometry ++ encMaterial m.material

/-- Decodes a `Model`. -/
def decModel (bs : List Nat) : Option (Model × List Nat) :=
  match decGeometry bs with
  | none => none
  | some (g, bs1) =>
    match decMaterial bs1 with
    | none => none
    | some (m, rest) => some (⟨g, m⟩, rest)

/-- Mirrors `enum BvhNode<Model> { Branch { left, right, aabb }, Leaf(..) }`. -/
inductive BvhNode where
  | Branch (left right : BvhNode) (aabb : Aabb)
  | Leaf (m : Model)
deriving DecidableEq, Repr

/-- BvhNode encoding: discriminant then fields, recursively. -/
def encBvh : BvhNode → List Nat
  | .Branch l r aabb => encVarint 0 ++ encBvh l ++ encBvh r ++ encAabb aabb
  | .Leaf m => encVarint 1 ++ encModel m

/-- Number of nodes of a BVH tree; a fuel bound for the decoder. -/
def bvhNodes : BvhNode → Nat
  | .Branch l r _ => 1 + bvhNodes l + bvhNodes r
  | .Leaf _ => 1

/-- Decodes a `BvhNode` with explicit fuel (each node consumes at least its
discriminant byte, so the byte count bounds the recursion). -/
def decBvh : Nat → List Nat → Option (BvhNode × List Nat)
  | 0, _ => none
  | fuel + 1, bs =>
    match decVarint bs with
    | some (0, bs1) =>
      match decBvh fuel bs1 with
      | none => none
      | some (l, bs2) =>
        match decBvh fuel bs2 with
        | none => none
        | some (r, bs3) =>
          match decAabb bs3 with
          | none => none
          | some (aabb, rest) => some (.Branch l r aabb, rest)
    | some (1, bs1) =>
      match decModel bs1 with
      | none => none
      | some (m, rest) => some (.Leaf m, rest)
    | _ => none

/-- Mirrors `Camera` (four serde `Vec3`s and two `f32`s, in field order). -/
structure Camera where
  position : Vec3bits
  forward : Vec3bits
  right : Vec3bits
  up : Vec3bits
  fov : Nat
  aspect_ratio : Nat
deriving DecidableEq, Repr

/-- Camera encoding. -/
def encCamera (c : Camera) : List Nat :=
  encVec3 c.position ++ encVec3 c.forward ++ encVec3 c.right ++ encVec3 c.up ++
    encF32 c.fov ++ encF32 c.aspect_ratio

/-- Decodes a `Camera`. -/
def decCamera (bs : List Nat) : Option (Camera × List Nat) :=
  match decVec3 bs with
  | none => none
  | some (p, bs1) =>
    match decVec3 bs1 with
    | none => none
    | some (f, bs2) =>
      match decVec3 bs2 with
      | none => none
      | some (r, bs3) =>
        match decVec3 bs3 with
        | none => none
        | some (u, bs4) =>
          match decF32 bs4 with
          | none => none
          | some (fov, bs5) =>
            match decF32 bs5 with
            | none => none
            | some (ar, rest) => some (⟨p, f, r, u, fov, ar⟩, rest)

/-- Mirrors `Scene { camera, objects, background, bvh, use_bvh }`. -/
structure Scene where
  camera : Camera
  objects : List Model
  background : Vec3bits
  bvh : BvhNode
  use_bvh : Bool
deriving DecidableEq, Repr

/-- Scene encoding: the five fields in declaration order. -/
def encScene (s : Scene) : List Nat :=
  encCamera s.camera ++ encList encModel s.objects ++ encVec3 s.background ++
    encBvh s.bvh ++ encBool s.use_bvh

/-- Decodes a `Scene` (fuel feeds the BVH decoder). -/
def decScene (fuel : Nat) (bs : List Nat) : Option (Scene × List Nat) :=
  match decCamera bs with
  | none => none
  | some (cam, bs1) =>
    match decList decModel bs1 with
    | none => none
    | some (objs, bs2) =>
      match decVec3 bs2 with
      | none => none
      | some (bg, bs3) =>
        match decBvh fuel bs3 with
        | none => none
        | some (bvh, bs4) =>
          match decBool bs4 with
          | none => none
          | some (ub, rest) => some (⟨cam, objs, bg, bvh, ub⟩, rest)

/-- Mirrors `enum MirrorPacket` from `src/protocol/packet.rs`.  A `String`
is its UTF-8 byte list; integer fields are `Nat` (WF bounds them to their
machine widths). -/
inductive MirrorPacket where
  | Hello (name : Option (List Nat)) (listen_port : Nat)
  | GossipPeers (peers : List SockAddr)
  | SyncScene (scene : Scene)
  | RenderTileRequest (tiles : List TileRenderWork) (image_size : Nat × Nat)
      (samples_per_pixel : Nat)
  | RenderTileResponse (tiles : List ImageBits) (render_time : Nat)
deriving DecidableEq, Repr

/-- bincode payload of a packet (what `encode_to_vec` produces). -/
def encMirrorPacket : MirrorPacket → List Nat
  | .Hello name port => encVarint 0 ++ encOpt encString name ++ encVarint port
  | .GossipPeers peers => encVarint 1 ++ encList encSockAddr peers
  | .SyncScene scene => encVarint 2 ++ encScene scene
  | .RenderTileRequest tiles image_size spp =>
    encVarint 3 ++ encList encTileRenderWork tiles ++
      encVarint image_size.1 ++ encVarint image_size.2 ++ encVarint spp
  | .RenderTileResponse tiles render_time =>
    encVarint 4 ++ encList encImageBits tiles ++ encVarint render_time

/-- bincode decoding of a packet payload (what `decode_from_slice` does). -/
def decMirrorPacket (fuel : Nat) (bs : List Nat) : Option (MirrorPacket × List Nat) :=
  match decVarint bs with
  | some (0, bs1) =>
    match decOpt decString bs1 with
    | none => none
    | some (name, bs2) =>
      match decVarint bs2 with
      | none => none
      | some (port, rest) => some (.Hello name port, rest)
  | some (1, bs1) =>
    match decList decSockAddr bs1 with
    | none => none
    | some (peers, rest) => some (.GossipPeers peers, rest)
  | some (2, bs1) =>
    match decScene fuel bs1 with
    | none => none
    | some (scene, rest) => some (.SyncScene scene, rest)
  | some (3, bs1) =>
    match decList decTileRenderWork bs1 with
    | none => none
    | some (tiles, bs2) =>
      match decVarint bs2 with
      | none => none
      | some (w, bs3) =>
        match decVarint bs3 with
        | none => none
        | some (h, bs4) =>
          match decVarint bs4 with
          | none => none
          | some (spp, rest) => some (.RenderTileRequest tiles (w, h) spp, rest)
  | some (4, bs1) =>
    match decList decImageBits bs1 with
    | none => none
    | some (tiles, bs2) =>
      match decVarint bs2 with
      | none => none
      | some (rt, rest) => some (.RenderTileResponse tiles rt, rest)
  | _ => none

/-- Fuel the BVH decoder needs for a packet: the node count of the carried
scene's BVH (zero for scene-free packets).  Bounded by the payload length. -/
def packetBvhFuel : MirrorPacket → Nat
  | .SyncScene s => bvhNodes s.bvh
  | _ => 0

/-- Big-endian `u32` bytes of `n % 2^32` (mirrors `(len as u32).to_be_bytes()`,
truncation included). -/
def beBytes4 (n : Nat) : List Nat :=
  [n / 2 ^ 24 % 256, n / 2 ^ 16 % 256, n / 2 ^ 8 % 256, n % 256]

/-- Value of 4 big-endian bytes (mirrors `u32::from_be_bytes`). -/
def beVal4 (b0 b1 b2 b3 : Nat) : Nat :=
  b0 * 2 ^ 24 + b1 * 2 ^ 16 + b2 * 2 ^ 8 + b3

/-- Mirrors the error kinds `MirrorPacket::read` can produce. -/
inductive PacketError where
  | ioEndOfStream
  | decodeFailed
deriving DecidableEq, Repr

/-- Mirrors `MirrorPacket::write`: 4-byte big-endian length prefix of the
bincode payload (the length cast to `u32`, truncating), then the payload. -/
def MirrorPacket.write (p : MirrorPacket) : List Nat :=
  let serialized := encMirrorPacket p
  beBytes4 serialized.length ++ serialized

/-- Mirrors `MirrorPacket::read` on a byte stream: read exactly 4 bytes
(EndOfStream if fewer), interpret them as the big-endian length `L`, read
exactly `L` bytes (EndOfStream if fewer), then `decode_from_slice` on those
`L` bytes; a failed decode is a `Decode` error and trailing payload bytes
are ignored. -/
def MirrorPacket.read (stream : List Nat) : Except PacketError MirrorPacket :=
  match stream with
  | b0 :: b1 :: b2 :: b3 :: rest =>
    let len := beVal4 b0 b1 b2 b3
    if rest.length < len then .error .ioEndOfStream
    else
      match decMirrorPacket (rest.take len).length (rest.take len) with
      | some (p, _) => .ok p
      | none => .error .decodeFailed
  | _ => .error .ioEndOfStream

/-- Well-formedness: every numeric field fits its Rust machine width — true
by construction of the Rust types, a hypothesis on the `Nat` model. -/
def SockAddr.wf : SockAddr → Prop
  | .v4 a b c d port => a < 256 ∧ b < 256 ∧ c < 256 ∧ d < 256 ∧ port < 2 ^ 16
  | .v6 octets port => octets.length = 16 ∧ (∀ o ∈ octets, o < 256) ∧ port < 2 ^ 16

/-- All three bit patterns fit an `f32`. -/
def Vec3bits.wf (v : Vec3bits) : Prop := v.x < 2 ^ 32 ∧ v.y < 2 ^ 32 ∧ v.z < 2 ^ 32

/-- `usize` fields fit 64 bits. -/
def TileRenderWork.wf (t : TileRenderWork) : Prop :=
  t.begin_pos.1 < 2 ^ 64 ∧ t.begin_pos.2 < 2 ^ 64 ∧
    t.tile_size.1 < 2 ^ 64 ∧ t.tile_size.2 < 2 ^ 64

/-- Extents fit `usize`, samples fit `f32`, and the slice length fits `u64`. -/
def ImageBits.wf (i : ImageBits) : Prop :=
  i.extent.1 < 2 ^ 64 ∧ i.extent.2 < 2 ^ 64 ∧ i.data.length < 2 ^ 64 ∧
    ∀ d ∈ i.data, d < 2 ^ 32

/-- Material fields fit their widths. -/
def Material.wf : Material → Prop
  | .DiffuseLight e => e.wf
  | .Diffuse a => a.wf
  | .Metalic a f => a.wf ∧ f < 2 ^ 32
  | .Dielectric ri => ri < 2 ^ 32

/-- Geometry fields fit their widths. -/
def Geometry.wf : Geometry → Prop
  | .Sphere p r => p.wf ∧ r < 2 ^ 32
  | .Quad p u v => p.wf ∧ u.wf ∧ v.wf
  | .Cuboid p s => p.wf ∧ s.wf

/-- Model fields are well-formed. -/
def Model.wf (m : Model) : Prop := m.geometry.wf ∧ m.material.wf

/-- Aabb corners are well-formed. -/
def Aabb.wf (a : Aabb) : Prop := a.min_position.wf ∧ a.max_position.wf

/-- Every BVH node is well-formed. -/
def BvhNode.wf : BvhNode → Prop
  | .Branch l r aabb => l.wf ∧ r.wf ∧ aabb.wf
  | .Leaf m => m.wf

/-- Camera fields fit their widths. -/
def Camera.wf (c : Camera) : Prop :=
  c.position.wf ∧ c.forward.wf ∧ c.right.wf ∧ c.up.wf ∧
    c.fov < 2 ^ 32 ∧ c.aspect_ratio < 2 ^ 32

/-- Scene fields are well-formed, with the object count fitting `u64`. -/
def Scene.wf (s : Scene) : Prop :=
  s.camera.wf ∧ s.objects.length < 2 ^ 64 ∧ (∀ m ∈ s.objects, m.wf) ∧
    s.background.wf ∧ s.bvh.wf

/-- Packet fields fit their Rust machine widths (UTF-8 bytes below 256, ports
`u16`, `usize` 64-bit, `render_time` `u128`). -/
def MirrorPacket.wf : MirrorPacket → Prop
  | .Hello name port =>
    (∀ s, name = some s → s.length < 2 ^ 64 ∧ ∀ b ∈ s, b < 256) ∧ port < 2 ^ 16
  | .GossipPeers peers => peers.length < 2 ^ 64 ∧ ∀ a ∈ peers, a.wf
  | .SyncScene scene => scene.wf
  | .RenderTileRequest tiles image_size spp =>
    tiles.length < 2 ^ 64 ∧ (∀ t ∈ tiles, t.wf) ∧
      image_size.1 < 2 ^ 64 ∧ image_size.2 < 2 ^ 64 ∧ spp < 2 ^ 64
  | .RenderTileResponse tiles render_time =>
    tiles.length < 2 ^ 64 ∧ (∀ t ∈ tiles, t.wf) ∧ render_time < 2 ^ 128

/-! ## Proof development -/

lemma num_axis_tiles_eq_ceil (len : Nat) : num_axis_tiles len = (len + 63) / 64 := by
  unfold num_axis_tiles
  rcases eq_or_ne (len % 64) 0 with h | h <;> simp [h] <;> omega

lemma mem_render_task_tiles {w h : Nat} {t : TileRenderWork} :
    t ∈ render_task_tiles (w, h) ↔
      ∃ tx ty, tx < num_axis_tiles w ∧ ty < num_axis_tiles h ∧ t = mkTile w h tx ty := by
  simp only [render_task_tiles, List.mem_flatMap, List.mem_map, List.mem_range]
  constructor
  · rintro ⟨ty, hty, tx, htx, rfl⟩
    exact ⟨tx, ty, htx, hty, rfl⟩
  · rintro ⟨tx, ty, htx, hty, rfl⟩
    exact ⟨ty, hty, tx, htx, rfl⟩

lemma lt_of_lt_num_axis_tiles {len tx : Nat} (h : tx < num_axis_tiles len) :
    tx * 64 < len := by
  rw [num_axis_tiles_eq_ceil] at h
  omega

lemma inTile_mkTile_iff {w h tx ty x y : Nat} (htx : tx * 64 < w) (hty : ty * 64 < h) :
    inTile (mkTile w h tx ty) x y ↔ (x / 64 = tx ∧ y / 64 = ty ∧ x < w ∧ y < h) := by
  unfold inTile mkTile
  simp only
  omega

/-- C3: for every image size `(W, H)` with `W, H ≥ 1`, the partition step of
`render_task` enqueues exactly `⌈W/64⌉ ⬝ ⌈H/64⌉` tile descriptors, each of
width and height at most 64, whose rectangles are pairwise disjoint and whose
union is exactly `[0, W) × [0, H)`. -/
theorem render_task_tiles_partition (w h : Nat) (hw : 1 ≤ w) (hh : 1 ≤ h) :
    (render_task_tiles (w, h)).length = ((w + 63) / 64) * ((h + 63) / 64) ∧
    (∀ t ∈ render_task_tiles (w, h), t.tile_size.1 ≤ 64 ∧ t.tile_size.2 ≤ 64) ∧
    (∀ t₁ ∈ render_task_tiles (w, h), ∀ t₂ ∈ render_task_tiles (w, h), t₁ ≠ t₂ →
      ∀ x y, ¬ (inTile t₁ x y ∧ inTile t₂ x y)) ∧
    (∀ x y, (x < w ∧ y < h) ↔ ∃ t ∈ render_task_tiles (w, h), inTile t x y) := by
  refine ⟨?_, ?_, ?_, ?_⟩
  · simp [render_task_tiles, num_axis_tiles_eq_ceil, Function.comp_def, Nat.mul_comm]
  · intro t ht
    rcases mem_render_task_tiles.mp ht with ⟨tx, ty, htx, hty, rfl⟩
    constructor <;> simp [mkTile]
  · intro t₁ h₁ t₂ h₂ hne x y ⟨hx₁, hx₂⟩
    rcases mem_render_task_tiles.mp h₁ with ⟨tx₁, ty₁, htx₁, hty₁, rfl⟩
    rcases mem_render_task_tiles.mp h₂ with ⟨tx₂, ty₂, htx₂, hty₂, rfl⟩
    rw [inTile_mkTile_iff (lt_of_lt_num_axis_tiles htx₁) (lt_of_lt_num_axis_tiles hty₁)] at hx₁
    rw [inTile_mkTile_iff (lt_of_lt_num_axis_tiles htx₂) (lt_of_lt_num_axis_tiles hty₂)] at hx₂
    exact hne (by rw [← hx₁.1, ← hx₁.2.1, ← hx₂.1, ← hx₂.2.1])
  · intro x y
    constructor
    · rintro ⟨hxw, hyh⟩
      refine ⟨mkTile w h (x / 64) (y / 64), mem_render_task_tiles.mpr
        ⟨x / 64, y / 64, ?_, ?_, rfl⟩, ?_⟩
      · rw [num_axis_tiles_eq_ceil]; omega
      · rw [num_axis_tiles_eq_ceil]; omega
      · rw [inTile_mkTile_iff (by omega) (by omega)]
        exact ⟨rfl, rfl, hxw, hyh⟩
    · rintro ⟨t, ht, hin⟩
      rcases mem_render_task_tiles.mp ht with ⟨tx, ty, htx, hty, rfl⟩
      rw [inTile_mkTile_iff (lt_of_lt_num_axis_tiles htx) (lt_of_lt_num_axis_tiles hty)] at hin
      exact ⟨hin.2.2.1, hin.2.2.2⟩

/-- C3 witness: the partition facts at the concrete size `100 × 65`. -/
theorem render_task_tiles_partition_witness :
    (1 ≤ 100 ∧ 1 ≤ 65) ∧
    ((render_task_tiles (100, 65)).length = ((100 + 63) / 64) * ((65 + 63) / 64) ∧
    (∀ t ∈ render_task_tiles (100, 65), t.tile_size.1 ≤ 64 ∧ t.tile_size.2 ≤ 64) ∧
    (∀ t₁ ∈ render_task_tiles (100, 65), ∀ t₂ ∈ render_task_tiles (100, 65), t₁ ≠ t₂ →
      ∀ x y, ¬ (inTile t₁ x y ∧ inTile t₂ x y)) ∧
    (∀ x y, (x < 100 ∧ y < 65) ↔ ∃ t ∈ render_task_tiles (100, 65), inTile t x y)) :=
  ⟨⟨by decide, by decide⟩, render_task_tiles_partition 100 65 (by decide) (by decide)⟩

lemma render_task_tiles_nodup (w h : Nat) : (render_task_tiles (w, h)).Nodup := by
  unfold render_task_tiles
  rw [List.nodup_flatMap]
  constructor
  · intro ty _
    refine List.Nodup.map ?_ (List.nodup_range _)
    intro tx₁ tx₂ hmk
    have h1 : tx₁ * 64 = tx₂ * 64 :=
      congrArg (fun t => t.begin_pos.1) hmk
    omega
  · refine (List.pairwise_lt_range _).imp ?_
    intro ty₁ ty₂ hlt t ht₁ ht₂
    rcases List.mem_map.mp ht₁ with ⟨tx₁, _, rfl⟩
    rcases List.mem_map.mp ht₂ with ⟨tx₂, _, hmk⟩
    have h2 : ty₂ * 64 = ty₁ * 64 :=
      congrArg (fun t => t.begin_pos.2) hmk
    omega

lemma clamp01_eq_self {v : ℚ} (h0 : 0 ≤ v) (h1 : v ≤ 1) : clamp01 v = v := by
  unfold clamp01
  rw [max_eq_left h0, min_eq_left h1]

lemma v3clamp_eq_self {a : Vec3q} (h : inRange01 a) : v3clamp a = a := by
  obtain ⟨h1, h2, h3, h4, h5, h6⟩ := h
  unfold v3clamp
  rw [clamp01_eq_self h1 h2, clamp01_eq_self h3 h4, clamp01_eq_self h5 h6]

lemma convex_in_range {sw nw : ℚ} {c n : Vec3q} (hsw : 0 ≤ sw) (hnw : 0 ≤ nw)
    (hsum : sw + nw = 1) (hc : inRange01 c) (hn : inRange01 n) :
    inRange01 (v3add (v3smul sw c) (v3smul nw n)) := by
  obtain ⟨c1, c2, c3, c4, c5, c6⟩ := hc
  obtain ⟨n1, n2, n3, n4, n5, n6⟩ := hn
  unfold inRange01 v3add v3smul
  dsimp only
  refine ⟨?_, ?_, ?_, ?_, ?_, ?_⟩ <;> nlinarith

/-- C1: after a render of `S = spp ≥ 1` samples on an accumulator with prior
counter `P = times_sampled`, every pixel equals
`P/(P+S) · previous + S/(P+S) · new_average` and the counter becomes `P + S`
(pixels and kernel averages lie in `[0, 1]`, as the framebuffer stores only
clamped values and the kernel averages samples of clamped radiance). -/
theorem render_pass_weighted_average (acc : AccumulatedImage) (k : Nat → Nat → Vec3q)
    (spp : Nat) (hspp : 1 ≤ spp)
    (hacc : ∀ x y, inRange01 (acc.image.get x y))
    (hk : ∀ x y, inRange01 (k x y)) :
    (render_pass acc k spp).times_sampled = acc.times_sampled + spp ∧
    ∀ x y, x < acc.image.width → y < acc.image.height →
      (render_pass acc k spp).image.get x y =
        v3add
          (v3smul ((acc.times_sampled : ℚ) / ((acc.times_sampled : ℚ) + (spp : ℚ)))
            (acc.image.get x y))
          (v3smul ((spp : ℚ) / ((acc.times_sampled : ℚ) + (spp : ℚ))) (k x y)) := by
  constructor
  · rfl
  intro x y hx hy
  set w := acc.image.width with hw
  set hgt := acc.image.height with hh
  set P := acc.times_sampled with hP
  have htotal : ((spp + P : Nat) : ℚ) = (P : ℚ) + (spp : ℚ) := by
    push_cast
    ring
  set sw : ℚ := (P : ℚ) / ((P : ℚ) + (spp : ℚ)) with hsw
  set nw : ℚ := (spp : ℚ) / ((P : ℚ) + (spp : ℚ)) with hnw
  have hposden : (0 : ℚ) < (P : ℚ) + (spp : ℚ) := by
    have : (1 : ℚ) ≤ (spp : ℚ) := by exact_mod_cast hspp
    have : (0 : ℚ) ≤ (P : ℚ) := Nat.cast_nonneg P
    linarith
  have hsw0 : 0 ≤ sw := div_nonneg (Nat.cast_nonneg P) (le_of_lt hposden)
  have hnw0 : 0 ≤ nw := div_nonneg (Nat.cast_nonneg spp) (le_of_lt hposden)
  have hsum : sw + nw = 1 := by
    rw [hsw, hnw, div_add_div_same, div_eq_one_iff_eq (ne_of_gt hposden)]
  -- the unique tile containing (x, y)
  set t₀ := mkTile w hgt (x / 64) (y / 64) with ht₀
  have ht₀mem : t₀ ∈ render_task_tiles (w, hgt) := by
    refine mem_render_task_tiles.mpr ⟨x / 64, y / 64, ?_, ?_, rfl⟩
    · rw [num_axis_tiles_eq_ceil]; omega
    · rw [num_axis_tiles_eq_ceil]; omega
  have huniq : ∀ t ∈ render_task_tiles (w, hgt), inTile t x y → t = t₀ := by
    intro t ht hin
    rcases mem_render_task_tiles.mp ht with ⟨tx, ty, htx, hty, rfl⟩
    rw [inTile_mkTile_iff (lt_of_lt_num_axis_tiles htx) (lt_of_lt_num_axis_tiles hty)] at hin
    rw [ht₀, ← hin.1, ← hin.2.1]
  obtain ⟨l₁, l₂, hsplit⟩ := List.append_of_mem ht₀mem
  have hnodup := render_task_tiles_nodup w hgt
  rw [hsplit] at hnodup
  have ht₀l₁ : t₀ ∉ l₁ := by
    intro hmem
    exact (List.disjoint_of_nodup_append hnodup) hmem (List.mem_cons_self t₀ l₂)
  have ht₀l₂ : t₀ ∉ l₂ := by
    have := (List.nodup_append.mp hnodup).2.1
    exact (List.nodup_cons.mp this).1
  have hnotin : ∀ {l : List TileRenderWork}, t₀ ∉ l →
      (∀ q ∈ l, q ∈ render_task_tiles (w, hgt)) →
      ∀ pt ∈ l.map (fun t => (t.begin_pos, renderedTile k t)), ¬ coversPix pt x y := by
    intro l hni hsub pt hpt hcov
    rcases List.mem_map.mp hpt with ⟨q, hq, rfl⟩
    have hin : inTile q x y := hcov
    exact hni (huniq q (hsub q hq) hin ▸ hq)
  have hsubl₁ : ∀ q ∈ l₁, q ∈ render_task_tiles (w, hgt) := by
    intro q hq
    rw [hsplit]
    exact List.mem_append_left _ hq
  have hsubl₂ : ∀ q ∈ l₂, q ∈ render_task_tiles (w, hgt) := by
    intro q hq
    rw [hsplit]
    exact List.mem_append_right _ (List.mem_cons_of_mem _ hq)
  have hcovt₀ : coversPix (t₀.begin_pos, renderedTile k t₀) x y := by
    show inTile t₀ x y
    rw [ht₀, inTile_mkTile_iff (by omega) (by omega)]
    exact ⟨rfl, rfl, hx, hy⟩
  -- evaluate the splice at (x, y)
  show (splice_rendered acc.image
      ((render_task_tiles (w, hgt)).map fun t => (t.begin_pos, renderedTile k t)) _).get x y = _
  rw [hsplit, List.map_append, List.map_cons]
  rw [splice_rendered_get_split _ _ _ _ x y _
    (hnotin ht₀l₁ hsubl₁) (hnotin ht₀l₂ hsubl₂) hcovt₀]
  have hbx : t₀.begin_pos.1 ≤ x ∧ x < t₀.begin_pos.1 + t₀.tile_size.1 := ⟨hcovt₀.1, hcovt₀.2.1⟩
  have hby : t₀.begin_pos.2 ≤ y ∧ y < t₀.begin_pos.2 + t₀.tile_size.2 :=
    ⟨hcovt₀.2.2.1, hcovt₀.2.2.2⟩
  have htget : (renderedTile k t₀).get (x - t₀.begin_pos.1) (y - t₀.begin_pos.2) = k x y := by
    show v3clamp (k (t₀.begin_pos.1 + (x - t₀.begin_pos.1)) (t₀.begin_pos.2 + (y - t₀.begin_pos.2))) = k x y
    rw [show t₀.begin_pos.1 + (x - t₀.begin_pos.1) = x from by omega,
      show t₀.begin_pos.2 + (y - t₀.begin_pos.2) = y from by omega]
    exact v3clamp_eq_self (hk x y)
  show v3clamp
      (v3add (v3smul ((P : ℚ) / ((spp + P : Nat) : ℚ)) (acc.image.get x y))
        (v3smul ((spp : ℚ) / ((spp + P : Nat) : ℚ))
          ((renderedTile k t₀).get (x - t₀.begin_pos.1) (y - t₀.begin_pos.2)))) = _
  rw [htget, htotal, ← hsw, ← hnw]
  exact v3clamp_eq_self (convex_in_range hsw0 hnw0 hsum (hacc x y) (hk x y))

/-- C1 witness: one sample on a `64 × 64` constant half-grey accumulator with a
constant quarter-grey kernel. -/
theorem render_pass_weighted_average_witness :
    (1 ≤ 1) ∧
    ((render_pass ⟨0, ⟨64, 64, fun _ _ => ⟨1/2, 1/2, 1/2⟩⟩⟩ (fun _ _ => ⟨1/4, 1/4, 1/4⟩)
        1).times_sampled = 0 + 1 ∧
    ∀ x y, x < (64 : Nat) → y < (64 : Nat) →
      (render_pass ⟨0, ⟨64, 64, fun _ _ => ⟨1/2, 1/2, 1/2⟩⟩⟩ (fun _ _ => ⟨1/4, 1/4, 1/4⟩)
          1).image.get x y =
        v3add
          (v3smul (((0 : Nat) : ℚ) / (((0 : Nat) : ℚ) + ((1 : Nat) : ℚ)))
            ((⟨64, 64, fun _ _ => ⟨1/2, 1/2, 1/2⟩⟩ : Image).get x y))
          (v3smul (((1 : Nat) : ℚ) / (((0 : Nat) : ℚ) + ((1 : Nat) : ℚ)))
            (⟨1/4, 1/4, 1/4⟩ : Vec3q))) :=
  ⟨le_rfl, render_pass_weighted_average ⟨0, ⟨64, 64, fun _ _ => ⟨1/2, 1/2, 1/2⟩⟩⟩
    (fun _ _ => ⟨1/4, 1/4, 1/4⟩) 1 le_rfl
    (fun _ _ => by norm_num [Image.get, inRange01])
    (fun _ _ => by norm_num [inRange01])⟩

lemma tileSumL_append_cons {α : Type} (ws₁ ws₂ : List (Worker α)) (w : Worker α) :
    tileSumL (ws₁ ++ w :: ws₂) =
      ((wbatch w.st : Multiset α) + (wbuf w.st : Multiset α)) +
        (tileSumL ws₁ + tileSumL ws₂) := by
  unfold tileSumL
  rw [List.map_append, List.sum_append, List.map_cons, List.sum_cons]
  abel

lemma heldCountL_append_cons {α : Type} (ws₁ ws₂ : List (Worker α)) (w : Worker α) :
    heldCountL (ws₁ ++ w :: ws₂) =
      (wbatch w.st).length + (heldCountL ws₁ + heldCountL ws₂) := by
  unfold heldCountL
  rw [List.map_append, List.sum_append, List.map_cons, List.sum_cons]
  omega

lemma bufSumL_append_cons {α : Type} (ws₁ ws₂ : List (Worker α)) (w : Worker α) :
    bufSumL (ws₁ ++ w :: ws₂) =
      (wbuf w.st : Multiset α) + (bufSumL ws₁ + bufSumL ws₂) := by
  unfold bufSumL
  rw [List.map_append, List.sum_append, List.map_cons, List.sum_cons]
  abel

lemma mem_replace_of_mem {α : Type} (wOld : Worker α) {wNew : Worker α}
    {ws₁ ws₂ : List (Worker α)} {w : Worker α} (hw : w ∈ ws₁ ++ wNew :: ws₂) :
    w = wNew ∨ w ∈ ws₁ ++ wOld :: ws₂ := by
  rcases List.mem_append.mp hw with h | h
  · exact Or.inr (List.mem_append_left _ h)
  · rcases List.mem_cons.mp h with h | h
    · exact Or.inl h
    · exact Or.inr (List.mem_append_right _ (List.mem_cons_of_mem _ h))

lemma kinds_map_replace {α : Type} (ws₁ ws₂ : List (Worker α)) (wNew wOld : Worker α)
    (hk : wNew.kind = wOld.kind) :
    (ws₁ ++ wNew :: ws₂).map (fun w => w.kind) =
      (ws₁ ++ wOld :: ws₂).map (fun w => w.kind) := by
  simp [hk]

lemma containsKey_eq_false_iff {t : List (SockAddr × Peer)} {a : SockAddr} :
    containsKey t a = false ↔ ∀ e ∈ t, e.1 ≠ a := by
  unfold containsKey
  rw [List.any_eq_false]
  simp

lemma register_peer_of_contains (t : List (SockAddr × Peer)) (a l : SockAddr)
    (p : Peer) (h : containsKey t a = true) : register_peer t a l p = (t, false) := by
  unfold register_peer
  by_cases hal : a = l
  · rw [if_pos hal]
  · rw [if_neg hal, if_pos h]

lemma register_peer_nodup {t : List (SockAddr × Peer)} (a l : SockAddr)
    (p : Peer) (hnodup : (t.map Prod.fst).Nodup) :
    ((register_peer t a l p).1.map Prod.fst).Nodup := by
  unfold register_peer
  by_cases h1 : a = l
  · rw [if_pos h1]
    exact hnodup
  rw [if_neg h1]
  by_cases h2 : containsKey t a = true
  · rw [if_pos h2]
    exact hnodup
  rw [if_neg h2]
  have hnew : ∀ e ∈ t, e.1 ≠ a :=
    containsKey_eq_false_iff.mp (Bool.not_eq_true _ ▸ h2 : containsKey t a = false)
  rw [List.map_append, List.nodup_append]
  refine ⟨hnodup, List.nodup_singleton a, ?_⟩
  intro x hx hxa
  rcases List.mem_map.mp hx with ⟨e, he, rfl⟩
  exact hnew e he (List.mem_singleton.mp hxa)

lemma register_peer_no_self {self : SockAddr} {t : List (SockAddr × Peer)}
    (a l : SockAddr) (p : Peer) (hna : a ≠ self)
    (hself : ∀ e ∈ t, e.1 ≠ self) :
    ∀ e ∈ (register_peer t a l p).1, e.1 ≠ self := by
  unfold register_peer
  by_cases h1 : a = l
  · rw [if_pos h1]
    exact hself
  rw [if_neg h1]
  by_cases h2 : containsKey t a = true
  · rw [if_pos h2]
    exact hself
  rw [if_neg h2]
  intro e he
  rcases List.mem_append.mp he with he | he
  · exact hself e he
  · rw [List.mem_singleton.mp he]
    exact hna

/-- C6 (amended): every table reachable by the peer-session and connector
protocol has at most one entry per listen-address, and a registration attempt
for an already-present listen-address returns the table unchanged with the
handshake refused, inside the same write-lock critical section; the table has
no entry keyed by this node's own listen-address provided that address
coincides with the hardcoded `127.0.0.1:listen_port` the connector checks
against — for any other listen address the connector can dial the node
itself and the dial-side session registers a self-keyed entry. -/
theorem peer_table_no_self_no_dup (self : SockAddr) (t : List (SockAddr × Peer))
    (hreach : PeerReachable self t) :
    (t.map Prod.fst).Nodup ∧
    (∀ (a l : SockAddr) (p : Peer), containsKey t a = true →
      register_peer t a l p = (t, false)) ∧
    (self = hardcoded_self self.port → ∀ e ∈ t, e.1 ≠ self) := by
  have key : (t.map Prod.fst).Nodup ∧
      (self = hardcoded_self self.port → ∀ e ∈ t, e.1 ≠ self) := by
    induction hreach with
    | start =>
      exact ⟨List.nodup_nil, fun _ e he => absurd he (List.not_mem_nil e)⟩
    | step hr hs ih =>
      cases hs with
      | inbound a p =>
        rename_i t
        refine ⟨register_peer_nodup a self p ih.1, fun hlo => ?_⟩
        by_cases hna : a = self
        · have hrp : register_peer t a self p = (t, false) := by
            unfold register_peer
            rw [if_pos hna]
          rw [hrp]
          exact ih.2 hlo
        · exact register_peer_no_self a self p hna (ih.2 hlo)
      | outbound a eph p hne =>
        refine ⟨register_peer_nodup a eph p ih.1, fun hlo => ?_⟩
        exact register_peer_no_self a eph p
          (fun hza => hne (hza.trans hlo)) (ih.2 hlo)
      | disconnect a =>
        rename_i t
        refine ⟨ih.1.sublist (List.Sublist.map Prod.fst (List.filter_sublist t)),
          fun hlo e he => ih.2 hlo e (List.mem_of_mem_filter he)⟩
  exact ⟨key.1, fun a l p h => register_peer_of_contains t a l p h, key.2⟩

/-- C6 witness: after one accepted inbound handshake from `127.0.0.1:3000` on
a node listening at `127.0.0.1:2020` — an address equal to the connector's
hardcoded self-check, so the no-self-entry conclusion applies — the
invariants hold for the resulting one-entry table. -/
theorem peer_table_no_self_no_dup_witness :
    PeerReachable (SockAddr.v4 127 0 0 1 2020)
      [(SockAddr.v4 127 0 0 1 3000, (⟨none⟩ : Peer))] ∧
    ((([(SockAddr.v4 127 0 0 1 3000, (⟨none⟩ : Peer))].map Prod.fst).Nodup ∧
    (∀ (a l : SockAddr) (p : Peer),
      containsKey [(SockAddr.v4 127 0 0 1 3000, (⟨none⟩ : Peer))] a = true →
      register_peer [(SockAddr.v4 127 0 0 1 3000, (⟨none⟩ : Peer))] a l p =
        ([(SockAddr.v4 127 0 0 1 3000, (⟨none⟩ : Peer))], false)) ∧
    (SockAddr.v4 127 0 0 1 2020 =
        hardcoded_self (SockAddr.v4 127 0 0 1 2020).port →
      ∀ e ∈ [(SockAddr.v4 127 0 0 1 3000, (⟨none⟩ : Peer))],
        e.1 ≠ SockAddr.v4 127 0 0 1 2020))) := by
  have hreach : PeerReachable (SockAddr.v4 127 0 0 1 2020)
      [(SockAddr.v4 127 0 0 1 3000, (⟨none⟩ : Peer))] :=
    PeerReachable.step PeerReachable.start
      (PeerStep.inbound [] (SockAddr.v4 127 0 0 1 3000) ⟨none⟩)
  exact ⟨hreach, peer_table_no_self_no_dup _ _ hreach⟩

/-- C6 counterexample: the connector's self-check compares only against the
hardcoded `127.0.0.1:listen_port`, so a node listening at `192.168.0.1:2020`
that is handed its own listen-address (by bootstrap or gossip) dials it; the
dial-side session's own self-check sees only the socket's ephemeral local
address (here `192.168.0.1:50000`), so it registers an entry keyed by the
node's own listen-address — a reachable table violating the claimed
no-self-entry invariant. -/
theorem peer_table_self_insertion :
    SockAddr.v4 192 168 0 1 2020 ≠
      hardcoded_self (SockAddr.v4 192 168 0 1 2020).port ∧
    PeerReachable (SockAddr.v4 192 168 0 1 2020)
      [(SockAddr.v4 192 168 0 1 2020, (⟨none⟩ : Peer))] ∧
    ¬ (∀ e ∈ [(SockAddr.v4 192 168 0 1 2020, (⟨none⟩ : Peer))],
        e.1 ≠ SockAddr.v4 192 168 0 1 2020) := by
  refine ⟨by decide, ?_, ?_⟩
  · have hstep := @PeerStep.outbound (SockAddr.v4 192 168 0 1 2020) []
      (SockAddr.v4 192 168 0 1 2020) (SockAddr.v4 192 168 0 1 50000) ⟨none⟩
      (by decide)
    rw [show (register_peer [] (SockAddr.v4 192 168 0 1 2020)
        (SockAddr.v4 192 168 0 1 50000) (⟨none⟩ : Peer)).1 =
      [(SockAddr.v4 192 168 0 1 2020, (⟨none⟩ : Peer))] from by decide] at hstep
    exact PeerReachable.step PeerReachable.start hstep
  · intro h
    exact h _ (List.mem_singleton.mpr rfl) rfl

/-- C9: the scheduler's size assertion fails exactly when the framebuffer is
smaller than 64 on either axis, so such a render is rejected by the
precondition, and any framebuffer with both dimensions at least 64 passes. -/
theorem render_task_size_assert_iff (w h : Nat) :
    (render_task_size_assert (w, h) = false ↔ (w < 64 ∨ h < 64)) ∧
    (render_task_size_assert (w, h) = true ↔ (64 ≤ w ∧ 64 ≤ h)) := by
  unfold render_task_size_assert
  constructor
  · rw [Bool.and_eq_false_iff]
    simp only [decide_eq_false_iff_not, not_le]
  · rw [Bool.and_eq_true]
    simp only [decide_eq_true_eq]

/-- C5: evaluated at sample counts that are all non-zero, `merge` leaves
`total_avg_time_per_sample` equal to the quotient of the `last_*` sums
(`(10 + 50) / (1 + 1) = 30`) instead of the claimed quotient of the `total_*`
sums (`(300 + 50) / (3 + 1) = 87`), and leaves `last_avg_time_per_sample` at
its old value `100` instead of overwriting it with the new record's `50`: the
source assigns `total_avg_time_per_sample` twice in a row and never assigns
`last_avg_time_per_sample`. -/
theorem RenderInfo_merge_dead_store :
    (RenderInfo.merge ⟨3, 300, 1, 10, 100, 100⟩ ⟨1, 50, 1, 50, 50, 50⟩ =
      ⟨4, 350, 1, 50, 30, 100⟩) ∧
    (300 + 50) / (3 + 1) = 87 ∧ (30 : Nat) ≠ 87 ∧ (100 : Nat) ≠ 50 := by
  refine ⟨rfl, rfl, by decide, by decide⟩

/-- C7 counterexample: a document carrying only the `host` key does not parse
to a configuration with an empty peer list — it fails with a missing-field
error, because `bootstrap_peers` has no serde default. -/
theorem Config_host_only_fails :
    Config.from_toml_fields (some (.v4 127 0 0 1 2020)) none =
      .error (.tomlError "missing field bootstrap_peers") ∧
    ∀ c : Config, Config.from_toml_fields (some (.v4 127 0 0 1 2020)) none ≠ .ok c := by
  refine ⟨rfl, ?_⟩
  intro c h
  exact Except.noConfusion h

/-- C7 (amended): parsing a document without the `bootstrap_peers` key fails
with a missing-field error (in particular when only `host` is present), and a
document with `bootstrap_peers` but no `host` parses with the default host
`0.0.0.0:2020`. -/
theorem Config_from_toml_defaults (hst : Option SockAddr) (bp : List SockAddr) :
    Config.from_toml_fields hst none =
      .error (.tomlError "missing field bootstrap_peers") ∧
    Config.from_toml_fields none (some bp) = .ok ⟨default_host, bp⟩ := by
  exact ⟨rfl, rfl⟩

/-- C8: a `RenderTileRequest` arriving before any `SyncScene` produces a
warning, sends nothing, leaves the session-local scene absent and keeps the
loop running; after a `SyncScene` the scene is stored, and a request is then
answered with exactly one `RenderTileResponse` carrying the rendered tile,
again continuing the loop. -/
theorem peer_session_unsynced_request {σ τ : Type}
    (render_tile : σ → Nat → (Nat × Nat) → (Nat × Nat) → (Nat × Nat) → τ)
    (bp ts is : Nat × Nat) (spp : Nat) (s : σ) (prior : Option σ) :
    peer_session_handle render_tile none (.renderTileRequest bp ts is spp) =
      ⟨none, [], [], [], true, true⟩ ∧
    (peer_session_handle render_tile prior (.syncScene s)).scene = some s ∧
    peer_session_handle render_tile (some s) (.renderTileRequest bp ts is spp) =
      ⟨some s, [.renderTileResponse (render_tile s spp bp ts is)], [], [], false, true⟩ := by
  exact ⟨rfl, rfl, rfl⟩

/-- C10: `trace` is total by construction — at depth 0 it returns the zero
radiance vector without consulting the scene, and along every branch the
number of recursive invocations is bounded by the depth argument, which
decreases by exactly one per bounce. -/
theorem Renderer_trace_terminates {ρ η : Type} (w : TraceWorld ρ η) (ray : ρ) (depth : Nat) :
    Renderer.trace w ray 0 = ⟨0, 0, 0⟩ ∧
    Renderer.trace_calls w ray depth ≤ depth := by
  refine ⟨rfl, ?_⟩
  induction depth generalizing ray with
  | zero => exact le_rfl
  | succ d ih =>
    unfold Renderer.trace_calls
    cases w.hit ray with
    | none => exact Nat.zero_le _
    | some h =>
      show (match w.scatter ray h with
        | none => 0
        | some scattered => 1 + Renderer.trace_calls w scattered.ray d) ≤ d + 1
      cases w.scatter ray h with
      | none => exact Nat.zero_le _
      | some scattered =>
        show 1 + Renderer.trace_calls w scattered.ray d ≤ d + 1
        have h1 := ih scattered.ray
        omega

lemma schedInv_init {α : Type} (init : List α) (kinds : List WKind) :
    SchedInv init kinds (schedInit init kinds) := by
  unfold SchedInv schedInit
  refine ⟨?_, ?_, ?_, ?_, ?_, ?_, ?_, ?_, ?_⟩
  · simp [tilesOf, tileSumL, wbatch, wbuf, List.map_map, Function.comp_def]
  · simp [heldCount, heldCountL, wbatch, List.map_map, Function.comp_def]
  · intro h
    simp at h
  · intro _
    rfl
  · intro h
    simp at h
  · intro w hw
    rcases List.mem_map.mp hw with ⟨k, _, rfl⟩
    simp
  · intro w hw hk buf hst
    rcases List.mem_map.mp hw with ⟨k, _, rfl⟩
    exact absurd hst (by simp)
  · simp [List.map_map, Function.comp_def]
  · intro w hw buf hst
    rcases List.mem_map.mp hw with ⟨k, _, rfl⟩
    exact absurd hst (by simp)

lemma schedInv_step {α : Type} {init : List α} {kinds : List WKind} {s s' : Sched α}
    (hinv : SchedInv init kinds s) (hstep : SchedStep s s') : SchedInv init kinds s' := by
  obtain ⟨q, c, cc, r, ws⟩ := s
  unfold SchedInv at hinv ⊢
  obtain ⟨h1, h2, h3, h4, h5, h6, h7, h8, h9⟩ := hinv
  dsimp only at h1 h2 h3 h4 h5 h6 h7 h8 h9
  cases hstep with
  | recvLocal ws₁ ws₂ buf q' w hws hq =>
    dsimp only at hws hq
    subst hws
    subst hq
    simp only [tilesOf, tileSumL_append_cons, wbatch, wbuf, heldCount,
      heldCountL_append_cons, List.length_cons, List.length_nil] at h1 h2
    dsimp only
    refine ⟨?_, ?_, ?_, ?_, ?_, ?_, ?_, ?_, ?_⟩
    · simp only [tilesOf, tileSumL_append_cons, wbatch, wbuf]
      rw [← h1]
      simp only [← Multiset.cons_coe, ← Multiset.singleton_add, Multiset.coe_nil]
      abel
    · simp only [heldCount, heldCountL_append_cons, wbatch, List.length_cons,
        List.length_nil]
      omega
    · exact h3
    · exact h4
    · exact h5
    · intro w' hw'
      rcases mem_replace_of_mem ⟨.localW, .idle buf⟩ hw' with rfl | hmem
      · simp
      · exact h6 w' hmem
    · intro w' hw' hk buf' hst
      rcases mem_replace_of_mem ⟨.localW, .idle buf⟩ hw' with rfl | hmem
      · exact absurd hst (by simp)
      · exact h7 w' hmem hk buf' hst
    · rw [kinds_map_replace ws₁ ws₂ ⟨.localW, .held [w] buf⟩ ⟨.localW, .idle buf⟩ rfl]
      exact h8
    · intro w' hw' buf' hst
      rcases mem_replace_of_mem ⟨.localW, .idle buf⟩ hw' with rfl | hmem
      · exact absurd hst (by simp)
      · exact h9 w' hmem buf' hst
  | ackLocal ws₁ ws₂ buf w hws =>
    dsimp only at hws
    subst hws
    simp only [tilesOf, tileSumL_append_cons, wbatch, wbuf, heldCount,
      heldCountL_append_cons, List.length_cons, List.length_nil] at h1 h2
    unfold ackClose
    dsimp only
    refine ⟨?_, ?_, ?_, ?_, ?_, ?_, ?_, ?_, ?_⟩
    · simp only [tilesOf, tileSumL_append_cons, wbatch, wbuf]
      rw [← h1]
      simp only [← Multiset.coe_add, ← Multiset.cons_coe, ← Multiset.singleton_add,
        Multiset.coe_nil]
      abel
    · simp only [heldCount, heldCountL_append_cons, wbatch, List.length_cons,
        List.length_nil]
      omega
    · intro h
      simp only [Bool.or_eq_true, decide_eq_true_eq] at h
      rcases h with h | h
      · have := h3 h
        omega
      · omega
    · intro h
      simp only [Bool.or_eq_false_iff, decide_eq_false_iff_not] at h
      rw [h4 h.1, if_neg h.2]
    · intro h
      cases c
      · simp only [Bool.false_or, decide_eq_true_eq] at h
        rw [h4 rfl, if_pos h]
      · exact absurd (h3 rfl) (by omega)
    · intro w' hw'
      rcases mem_replace_of_mem ⟨.localW, .held [w] buf⟩ hw' with rfl | hmem
      · simp
      · exact h6 w' hmem
    · intro w' hw' hk buf' hst
      rcases mem_replace_of_mem ⟨.localW, .held [w] buf⟩ hw' with rfl | hmem
      · exact absurd hst (by simp)
      · rw [h7 w' hmem hk buf' hst]
        simp
    · rw [kinds_map_replace ws₁ ws₂ ⟨.localW, .idle (buf ++ [w])⟩ ⟨.localW, .held [w] buf⟩ rfl]
      exact h8
    · intro w' hw' buf' hst
      rcases mem_replace_of_mem ⟨.localW, .held [w] buf⟩ hw' with rfl | hmem
      · exact absurd hst (by simp)
      · exact h9 w' hmem buf' hst
  | recvRemote ws₁ ws₂ buf q₁ q₂ w hws hq hlen =>
    dsimp only at hws hq
    subst hws
    subst hq
    simp only [tilesOf, tileSumL_append_cons, wbatch, wbuf, heldCount,
      heldCountL_append_cons, List.length_append, List.length_cons,
      List.length_nil] at h1 h2
    dsimp only
    refine ⟨?_, ?_, ?_, ?_, ?_, ?_, ?_, ?_, ?_⟩
    · simp only [tilesOf, tileSumL_append_cons, wbatch, wbuf]
      rw [← h1]
      simp only [← Multiset.coe_add, Multiset.coe_nil]
      abel
    · simp only [heldCount, heldCountL_append_cons, wbatch, List.length_cons]
      omega
    · exact h3
    · exact h4
    · exact h5
    · intro w' hw'
      rcases mem_replace_of_mem ⟨.remoteW, .idle buf⟩ hw' with rfl | hmem
      · simp
      · exact h6 w' hmem
    · intro w' hw' hk buf' hst
      rcases mem_replace_of_mem ⟨.remoteW, .idle buf⟩ hw' with rfl | hmem
      · exact absurd hst (by simp)
      · exact h7 w' hmem hk buf' hst
    · rw [kinds_map_replace ws₁ ws₂ ⟨.remoteW, .held (w :: q₁) buf⟩ ⟨.remoteW, .idle buf⟩ rfl]
      exact h8
    · intro w' hw' buf' hst
      rcases mem_replace_of_mem ⟨.remoteW, .idle buf⟩ hw' with rfl | hmem
      · simp at hst
      · exact h9 w' hmem buf' hst
  | batchDropped ws₁ ws₂ buf q₁ w hws hq hlen hc =>
    dsimp only at hws hq hc
    subst hws
    subst hq
    simp only [heldCount, heldCountL_append_cons, wbatch, List.length_cons] at h2
    have hr := h3 hc
    exact absurd hr (by omega)
  | sendFail ws₁ ws₂ B buf hws hc =>
    dsimp only at hws hc
    subst hws
    simp only [tilesOf, tileSumL_append_cons, wbatch, wbuf, heldCount,
      heldCountL_append_cons, List.length_nil] at h1 h2
    dsimp only
    refine ⟨?_, ?_, ?_, ?_, ?_, ?_, ?_, ?_, ?_⟩
    · simp only [tilesOf, tileSumL_append_cons, wbatch, wbuf]
      rw [← h1]
      simp only [← Multiset.coe_add, Multiset.coe_nil]
      abel
    · simp only [heldCount, heldCountL_append_cons, wbatch, List.length_append,
        List.length_nil]
      omega
    · intro h
      rw [hc] at h
      exact Bool.noConfusion h
    · intro _
      exact h4 hc
    · intro h
      rw [hc] at h
      exact Bool.noConfusion h
    · intro w' hw'
      rcases mem_replace_of_mem ⟨.remoteW, .held B buf⟩ hw' with rfl | hmem
      · simp
      · exact h6 w' hmem
    · intro w' hw' hk buf' hst
      rcases mem_replace_of_mem ⟨.remoteW, .held B buf⟩ hw' with rfl | hmem
      · exact absurd hk (by simp)
      · exact h7 w' hmem hk buf' hst
    · rw [kinds_map_replace ws₁ ws₂ ⟨.remoteW, .exited buf⟩ ⟨.remoteW, .held B buf⟩ rfl]
      exact h8
    · intro w' hw' buf' hst
      rcases mem_replace_of_mem ⟨.remoteW, .held B buf⟩ hw' with rfl | hmem
      · exact absurd hst (by simp)
      · exact h9 w' hmem buf' hst
  | sendFailPanic ws₁ ws₂ B buf hws hc hB =>
    dsimp only at hws hc
    subst hws
    simp only [heldCount, heldCountL_append_cons, wbatch] at h2
    have hr := h3 hc
    have hBpos : 0 < B.length := List.length_pos.mpr hB
    exact absurd hr (by omega)
  | ackRemote ws₁ ws₂ B buf hws =>
    dsimp only at hws
    subst hws
    have hB : B ≠ [] := by
      intro hBe
      exact h9 ⟨.remoteW, .held B buf⟩
        (List.mem_append_right _ (List.mem_cons_self _ _)) buf (by rw [hBe])
    have hBpos : 0 < B.length := List.length_pos.mpr hB
    simp only [tilesOf, tileSumL_append_cons, wbatch, wbuf, heldCount,
      heldCountL_append_cons, List.length_nil] at h1 h2
    unfold ackClose
    dsimp only
    refine ⟨?_, ?_, ?_, ?_, ?_, ?_, ?_, ?_, ?_⟩
    · simp only [tilesOf, tileSumL_append_cons, wbatch, wbuf]
      rw [← h1]
      simp only [← Multiset.coe_add, Multiset.coe_nil]
      abel
    · simp only [heldCount, heldCountL_append_cons, wbatch, List.length_nil]
      omega
    · intro h
      simp only [Bool.or_eq_true, decide_eq_true_eq] at h
      rcases h with h | h
      · have := h3 h
        omega
      · omega
    · intro h
      simp only [Bool.or_eq_false_iff, decide_eq_false_iff_not] at h
      rw [h4 h.1, if_neg h.2]
    · intro h
      cases c
      · simp only [Bool.false_or, decide_eq_true_eq] at h
        rw [h4 rfl, if_pos h]
      · exact absurd (h3 rfl) (by omega)
    · intro w' hw'
      rcases mem_replace_of_mem ⟨.remoteW, .held B buf⟩ hw' with rfl | hmem
      · simp
      · exact h6 w' hmem
    · intro w' hw' hk buf' hst
      rcases mem_replace_of_mem ⟨.remoteW, .held B buf⟩ hw' with rfl | hmem
      · exact absurd hst (by simp)
      · rw [h7 w' hmem hk buf' hst]
        simp
    · rw [kinds_map_replace ws₁ ws₂ ⟨.remoteW, .idle (buf ++ B)⟩ ⟨.remoteW, .held B buf⟩ rfl]
      exact h8
    · intro w' hw' buf' hst
      rcases mem_replace_of_mem ⟨.remoteW, .held B buf⟩ hw' with rfl | hmem
      · exact absurd hst (by simp)
      · exact h9 w' hmem buf' hst
  | recvClosed ws₁ ws₂ buf k hws hq hc =>
    dsimp only at hws hq hc
    subst hws
    subst hq
    simp only [tilesOf, tileSumL_append_cons, wbatch, wbuf, heldCount,
      heldCountL_append_cons, List.length_nil] at h1 h2
    dsimp only
    refine ⟨?_, ?_, ?_, ?_, ?_, ?_, ?_, ?_, ?_⟩
    · simp only [tilesOf, tileSumL_append_cons, wbatch, wbuf]
      rw [← h1]
    · simp only [heldCount, heldCountL_append_cons, wbatch, List.length_nil]
      omega
    · exact h3
    · exact h4
    · exact h5
    · intro w' hw'
      rcases mem_replace_of_mem ⟨k, .idle buf⟩ hw' with rfl | hmem
      · simp
      · exact h6 w' hmem
    · intro w' hw' hk buf' hst
      rcases mem_replace_of_mem ⟨k, .idle buf⟩ hw' with rfl | hmem
      · exact hc
      · exact h7 w' hmem hk buf' hst
    · rw [kinds_map_replace ws₁ ws₂ ⟨k, .exited buf⟩ ⟨k, .idle buf⟩ rfl]
      exact h8
    · intro w' hw' buf' hst
      rcases mem_replace_of_mem ⟨k, .idle buf⟩ hw' with rfl | hmem
      · exact absurd hst (by simp)
      · exact h9 w' hmem buf' hst
  | remoteSyncFail ws₁ ws₂ hws =>
    dsimp only at hws
    subst hws
    simp only [tilesOf, tileSumL_append_cons, wbatch, wbuf, heldCount,
      heldCountL_append_cons, List.length_nil] at h1 h2
    dsimp only
    refine ⟨?_, ?_, ?_, ?_, ?_, ?_, ?_, ?_, ?_⟩
    · simp only [tilesOf, tileSumL_append_cons, wbatch, wbuf]
      rw [← h1]
    · simp only [heldCount, heldCountL_append_cons, wbatch, List.length_nil]
      omega
    · exact h3
    · exact h4
    · exact h5
    · intro w' hw'
      rcases mem_replace_of_mem ⟨.remoteW, .idle []⟩ hw' with rfl | hmem
      · simp
      · exact h6 w' hmem
    · intro w' hw' hk buf' hst
      rcases mem_replace_of_mem ⟨.remoteW, .idle []⟩ hw' with rfl | hmem
      · exact absurd hk (by simp)
      · exact h7 w' hmem hk buf' hst
    · rw [kinds_map_replace ws₁ ws₂ ⟨.remoteW, .exited []⟩ ⟨.remoteW, .idle []⟩ rfl]
      exact h8
    · intro w' hw' buf' hst
      rcases mem_replace_of_mem ⟨.remoteW, .idle []⟩ hw' with rfl | hmem
      · exact absurd hst (by simp)
      · exact h9 w' hmem buf' hst

lemma schedInv_reachable {α : Type} {init : List α} {kinds : List WKind} {s : Sched α}
    (hreach : SchedReachable init kinds s) : SchedInv init kinds s := by
  induction hreach with
  | start => exact schedInv_init init kinds
  | step hr hs ih => exact schedInv_step ih hs

/-- C2: under any interleaving of at least one local worker with any number of
remote workers, once every worker has left its loop the union of the private
buffers they splice equals the initially enqueued tiles exactly (a multiset
equality: no tile lost, none duplicated — failed remote batches were
re-enqueued and absorbed by other workers), the remaining-tiles counter is
zero, the queue is drained, and `close()` was invoked exactly once.
`render_task` always spawns at least one local worker
(`num_local_tasks = max(.., 1)`), which never exits before the channel is
closed and empty.  -/
theorem sched_tiles_spliced_exactly_once {α : Type} (init : List α)
    (kinds : List WKind) (s : Sched α)
    (hreach : SchedReachable init kinds s)
    (hlocal : WKind.localW ∈ kinds) (hdone : allExited s) :
    splicedTiles s = (init : Multiset α) ∧
    s.closeCount = 1 ∧ s.remaining = 0 ∧ s.queue = [] := by
  obtain ⟨h1, h2, h3, h4, h5, h6, h7, h8, h9⟩ := schedInv_reachable hreach
  obtain ⟨wl, hwl, hwlk⟩ := List.mem_map.mp (h8 ▸ hlocal)
  obtain ⟨bufl, hbufl⟩ := hdone wl hwl
  have hclosed : s.closed = true := h7 wl hwl hwlk bufl hbufl
  have hrem : s.remaining = 0 := h3 hclosed
  have hq : s.queue = [] := by
    rw [hrem] at h2
    exact List.length_eq_zero.mp (by omega)
  have hsum : tileSumL s.workers = bufSumL s.workers := by
    unfold tileSumL bufSumL
    apply congrArg
    apply List.map_congr_left
    intro w hw
    obtain ⟨buf, hb⟩ := hdone w hw
    rw [hb]
    simp [wbatch, wbuf]
  refine ⟨?_, h5 hclosed, hrem, hq⟩
  unfold splicedTiles
  rw [← hsum]
  unfold tilesOf at h1
  rw [hq] at h1
  simpa [Multiset.coe_nil] using h1

/-- C2 witness: one tile, one local worker; the worker receives it, renders
it, closes the channel on the final acknowledgement, observes closed-and-empty
and exits; its buffer is exactly the initial tile list and `close()` ran
once. -/
theorem sched_tiles_spliced_exactly_once_witness :
    (SchedReachable [7] [WKind.localW]
        (⟨[], true, 1, 0, [⟨WKind.localW, WState.exited [7]⟩]⟩ : Sched Nat) ∧
      WKind.localW ∈ [WKind.localW] ∧
      allExited (⟨[], true, 1, 0, [⟨WKind.localW, WState.exited [7]⟩]⟩ : Sched Nat)) ∧
    (splicedTiles (⟨[], true, 1, 0, [⟨WKind.localW, WState.exited [7]⟩]⟩ : Sched Nat) =
        (([7] : List Nat) : Multiset Nat) ∧
      (⟨[], true, 1, 0, [⟨WKind.localW, WState.exited [7]⟩]⟩ : Sched Nat).closeCount = 1 ∧
      (⟨[], true, 1, 0, [⟨WKind.localW, WState.exited [7]⟩]⟩ : Sched Nat).remaining = 0 ∧
      (⟨[], true, 1, 0, [⟨WKind.localW, WState.exited [7]⟩]⟩ : Sched Nat).queue = []) := by
  have hr : SchedReachable [7] [WKind.localW]
      (⟨[], true, 1, 0, [⟨WKind.localW, WState.exited [7]⟩]⟩ : Sched Nat) :=
    SchedReachable.step
      (SchedReachable.step
        (SchedReachable.step SchedReachable.start
          (SchedStep.recvLocal _ [] [] [] [] 7 rfl rfl))
        (SchedStep.ackLocal _ [] [] [] 7 rfl))
      (SchedStep.recvClosed _ [] [] [7] WKind.localW rfl rfl rfl)
  have hdone : allExited (⟨[], true, 1, 0, [⟨WKind.localW, WState.exited [7]⟩]⟩ : Sched Nat) := by
    intro w hw
    rcases List.mem_singleton.mp hw with rfl
    exact ⟨[7], rfl⟩
  exact ⟨⟨hr, List.mem_singleton.mpr rfl, hdone⟩,
    sched_tiles_spliced_exactly_once [7] [WKind.localW] _ hr
      (List.mem_singleton.mpr rfl) hdone⟩

lemma takeLE_leBytes : ∀ (k n : Nat) (r : List Nat),
    takeLE k (leBytes k n ++ r) = some (n % 256 ^ k, r) := by
  intro k
  induction k with
  | zero =>
    intro n r
    simp [leBytes, takeLE, Nat.mod_one]
  | succ m ih =>
    intro n r
    simp only [leBytes, List.cons_append, takeLE, List.append_eq]
    rw [ih (n / 256) r]
    show some (n % 256 + 256 * (n / 256 % 256 ^ m), r) = some (n % 256 ^ (m + 1), r)
    rw [pow_succ, Nat.mul_comm (256 ^ m) 256, Nat.mod_mul]

lemma takeBytes_append : ∀ (l r : List Nat), takeBytes l.length (l ++ r) = some (l, r) := by
  intro l
  induction l with
  | nil =>
    intro r
    simp [takeBytes]
  | cons b bs ih =>
    intro r
    simp only [List.length_cons, takeBytes, List.cons_append, List.append_eq]
    rw [ih r]

lemma decVarint_encVarint (n : Nat) (h : n < 2 ^ 128) (r : List Nat) :
    decVarint (encVarint n ++ r) = some (n, r) := by
  unfold encVarint
  by_cases h1 : n < 251
  · rw [if_pos h1]
    simp [decVarint, h1]
  rw [if_neg h1]
  by_cases h2 : n < 2 ^ 16
  · rw [if_pos h2]
    have he : n % 256 ^ 2 = n := Nat.mod_eq_of_lt (by omega)
    have he2 : n % 65536 = n := Nat.mod_eq_of_lt (by omega)
    simp [decVarint, takeLE_leBytes 2 n r, he, he2]
  rw [if_neg h2]
  by_cases h3 : n < 2 ^ 32
  · rw [if_pos h3]
    have he : n % 256 ^ 4 = n := Nat.mod_eq_of_lt (by omega)
    have he2 : n % 4294967296 = n := Nat.mod_eq_of_lt (by omega)
    simp [decVarint, takeLE_leBytes 4 n r, he, he2]
  rw [if_neg h3]
  by_cases h4 : n < 2 ^ 64
  · rw [if_pos h4]
    have he : n % 256 ^ 8 = n := Nat.mod_eq_of_lt (by omega)
    have he2 : n % 18446744073709551616 = n := Nat.mod_eq_of_lt (by omega)
    simp [decVarint, takeLE_leBytes 8 n r, he, he2]
  rw [if_neg h4]
  have he : n % 256 ^ 16 = n := Nat.mod_eq_of_lt (by omega)
  have he2 : n % 340282366920938463463374607431768211456 = n := Nat.mod_eq_of_lt (by omega)
  simp [decVarint, takeLE_leBytes 16 n r, he, he2]

lemma decF32_encF32 (n : Nat) (h : n < 2 ^ 32) (r : List Nat) :
    decF32 (encF32 n ++ r) = some (n, r) := by
  unfold decF32 encF32
  rw [takeLE_leBytes 4 n r, Nat.mod_eq_of_lt (by norm_num at h ⊢; omega)]

lemma decBool_encBool (b : Bool) (r : List Nat) :
    decBool (encBool b ++ r) = some (b, r) := by
  cases b <;> simp [encBool, decBool]

lemma decVec3_encVec3 (v : Vec3bits) (h : v.wf) (r : List Nat) :
    decVec3 (encVec3 v ++ r) = some (v, r) := by
  obtain ⟨hx, hy, hz⟩ := h
  simp only [encVec3, decVec3, List.append_assoc, decF32_encF32 v.x hx,
    decF32_encF32 v.y hy, decF32_encF32 v.z hz]

lemma decString_encString (s : List Nat) (h : s.length < 2 ^ 64) (r : List Nat) :
    decString (encString s ++ r) = some (s, r) := by
  simp only [encString, decString, List.append_assoc,
    decVarint_encVarint s.length (by omega) (s ++ r), takeBytes_append s r]

lemma decOpt_encOpt {A : Type} (encA : A → List Nat)
    (decA : List Nat → Option (A × List Nat)) (o : Option A)
    (h : ∀ a, o = some a → ∀ r, decA (encA a ++ r) = some (a, r)) (r : List Nat) :
    decOpt decA (encOpt encA o ++ r) = some (o, r) := by
  cases o with
  | none => simp [encOpt, decOpt]
  | some a =>
    simp [encOpt, decOpt, h a rfl r]

lemma decElems_encElems {A : Type} (encA : A → List Nat)
    (decA : List Nat → Option (A × List Nat)) (l : List A)
    (h : ∀ a ∈ l, ∀ r, decA (encA a ++ r) = some (a, r)) : ∀ (r : List Nat),
    decElems decA l.length (encElems encA l ++ r) = some (l, r) := by
  induction l with
  | nil =>
    intro r
    simp [encElems, decElems]
  | cons a l ih =>
    intro r
    have hmem : ∀ b ∈ l, ∀ r, decA (encA b ++ r) = some (b, r) :=
      fun b hb => h b (List.mem_cons_of_mem a hb)
    simp only [encElems, List.map_cons, List.flatten_cons, List.length_cons,
      decElems, List.append_assoc, h a (List.mem_cons_self a l)]
    have ih2 := ih hmem r
    simp only [encElems] at ih2
    rw [ih2]

lemma decList_encList {A : Type} (encA : A → List Nat)
    (decA : List Nat → Option (A × List Nat)) (l : List A)
    (hlen : l.length < 2 ^ 64)
    (h : ∀ a ∈ l, ∀ r, decA (encA a ++ r) = some (a, r)) (r : List Nat) :
    decList decA (encList encA l ++ r) = some (l, r) := by
  simp only [encList, decList, List.append_assoc,
    decVarint_encVarint l.length (by omega) (encElems encA l ++ r),
    decElems_encElems encA decA l h r]

lemma decSockAddr_encSockAddr (a : SockAddr) (h : a.wf) (r : List Nat) :
    decSockAddr (encSockAddr a ++ r) = some (a, r) := by
  cases a with
  | v4 o1 o2 o3 o4 port =>
    obtain ⟨h1, h2, h3, h4, hp⟩ := h
    have hb : takeBytes 4 ([o1, o2, o3, o4] ++ encVarint port ++ r) =
        some ([o1, o2, o3, o4], encVarint port ++ r) := by
      have := takeBytes_append [o1, o2, o3, o4] (encVarint port ++ r)
      simpa using this
    simp only [encSockAddr, decSockAddr, List.append_assoc,
      decVarint_encVarint 0 (by omega), List.nil_append]
    simp only [← List.append_assoc, hb, decVarint_encVarint port (by omega) r]
  | v6 octets port =>
    obtain ⟨hlen, ho, hp⟩ := h
    have hb : takeBytes 16 (octets ++ (encVarint port ++ r)) =
        some (octets, encVarint port ++ r) := by
      rw [← hlen]
      exact takeBytes_append octets (encVarint port ++ r)
    simp only [encSockAddr, decSockAddr, List.append_assoc,
      decVarint_encVarint 1 (by omega), hb, decVarint_encVarint port (by omega) r]

lemma decTileRenderWork_encTileRenderWork (t : TileRenderWork) (h : t.wf)
    (r : List Nat) : decTileRenderWork (encTileRenderWork t ++ r) = some (t, r) := by
  obtain ⟨h1, h2, h3, h4⟩ := h
  simp only [encTileRenderWork, decTileRenderWork, List.append_assoc,
    decVarint_encVarint t.begin_pos.1 (by omega),
    decVarint_encVarint t.begin_pos.2 (by omega),
    decVarint_encVarint t.tile_size.1 (by omega),
    decVarint_encVarint t.tile_size.2 (by omega) r]

lemma decImageBits_encImageBits (i : ImageBits) (h : i.wf) (r : List Nat) :
    decImageBits (encImageBits i ++ r) = some (i, r) := by
  obtain ⟨h1, h2, h3, h4⟩ := h
  have hdata : ∀ d ∈ i.data, ∀ r, decF32 (encF32 d ++ r) = some (d, r) :=
    fun d hd => decF32_encF32 d (h4 d hd)
  simp only [encImageBits, decImageBits, List.append_assoc,
    decVarint_encVarint i.extent.1 (by omega),
    decVarint_encVarint i.extent.2 (by omega)]
  have hl : decList decF32 (encList encF32 i.data ++ r) = some (i.data, r) :=
    decList_encList encF32 decF32 i.data (by omega) hdata r
  simp only [encList, List.append_assoc] at hl
  rw [hl]

lemma decAabb_encAabb (a : Aabb) (h : a.wf) (r : List Nat) :
    decAabb (encAabb a ++ r) = some (a, r) := by
  obtain ⟨h1, h2⟩ := h
  simp only [encAabb, decAabb, List.append_assoc,
    decVec3_encVec3 a.min_position h1, decVec3_encVec3 a.max_position h2 r]

lemma decMaterial_encMaterial (m : Material) (h : m.wf) (r : List Nat) :
    decMaterial (encMaterial m ++ r) = some (m, r) := by
  cases m with
  | DiffuseLight e =>
    simp only [encMaterial, decMaterial, List.append_assoc,
      decVarint_encVarint 0 (by omega), decVec3_encVec3 e h r]
  | Diffuse a =>
    simp only [encMaterial, decMaterial, List.append_assoc,
      decVarint_encVarint 1 (by omega), decVec3_encVec3 a h r]
  | Metalic a f =>
    obtain ⟨ha, hf⟩ := h
    simp only [encMaterial, decMaterial, List.append_assoc,
      decVarint_encVarint 2 (by omega), decVec3_encVec3 a ha,
      decF32_encF32 f hf r]
  | Dielectric ri =>
    simp only [encMaterial, decMaterial, List.append_assoc,
      decVarint_encVarint 3 (by omega), decF32_encF32 ri h r]

lemma decGeometry_encGeometry (g : Geometry) (h : g.wf) (r : List Nat) :
    decGeometry (encGeometry g ++ r) = some (g, r) := by
  cases g with
  | Sphere p rad =>
    obtain ⟨hp, hr⟩ := h
    simp only [encGeometry, decGeometry, List.append_assoc,
      decVarint_encVarint 0 (by omega), decVec3_encVec3 p hp,
      decF32_encF32 rad hr r]
  | Quad p u v =>
    obtain ⟨hp, hu, hv⟩ := h
    simp only [encGeometry, decGeometry, List.append_assoc,
      decVarint_encVarint 1 (by omega), decVec3_encVec3 p hp,
      decVec3_encVec3 u hu, decVec3_encVec3 v hv r]
  | Cuboid p s =>
    obtain ⟨hp, hs⟩ := h
    simp only [encGeometry, decGeometry, List.append_assoc,
      decVarint_encVarint 2 (by omega), decVec3_encVec3 p hp,
      decVec3_encVec3 s hs r]

lemma decModel_encModel (m : Model) (h : m.wf) (r : List Nat) :
    decModel (encModel m ++ r) = some (m, r) := by
  obtain ⟨hg, hm⟩ := h
  simp only [encModel, decModel, List.append_assoc,
    decGeometry_encGeometry m.geometry hg, decMaterial_encMaterial m.material hm r]

lemma decCamera_encCamera (c : Camera) (h : c.wf) (r : List Nat) :
    decCamera (encCamera c ++ r) = some (c, r) := by
  obtain ⟨hp, hf, hr, hu, hfov, har⟩ := h
  simp only [encCamera, decCamera, List.append_assoc,
    decVec3_encVec3 c.position hp, decVec3_encVec3 c.forward hf,
    decVec3_encVec3 c.right hr, decVec3_encVec3 c.up hu,
    decF32_encF32 c.fov hfov, decF32_encF32 c.aspect_ratio har r]

lemma bvhNodes_le_encBvh : ∀ (t : BvhNode), bvhNodes t ≤ (encBvh t).length := by
  intro t
  induction t with
  | Branch l r aabb ihl ihr =>
    simp only [bvhNodes, encBvh, List.length_append]
    have h0 : (encVarint 0).length = 1 := rfl
    omega
  | Leaf m =>
    simp only [bvhNodes, encBvh, List.length_append]
    have h1 : (encVarint 1).length = 1 := rfl
    omega

lemma decBvh_encBvh : ∀ (t : BvhNode) (fuel : Nat), t.wf → bvhNodes t ≤ fuel →
    ∀ (r : List Nat), decBvh fuel (encBvh t ++ r) = some (t, r) := by
  intro t
  induction t with
  | Branch l rr aabb ihl ihr =>
    intro fuel hwf hfuel r
    obtain ⟨hl, hr, ha⟩ := hwf
    cases fuel with
    | zero =>
      simp only [bvhNodes] at hfuel
      omega
    | succ f =>
      simp only [bvhNodes] at hfuel
      simp only [encBvh, decBvh, List.append_assoc,
        decVarint_encVarint 0 (by omega), ihl f hl (by omega),
        ihr f hr (by omega), decAabb_encAabb aabb ha r]
  | Leaf m =>
    intro fuel hwf hfuel r
    cases fuel with
    | zero =>
      simp only [bvhNodes] at hfuel
      omega
    | succ f =>
      simp only [encBvh, decBvh, List.append_assoc,
        decVarint_encVarint 1 (by omega), decModel_encModel m hwf r]

lemma decScene_encScene (s : Scene) (h : s.wf) (fuel : Nat)
    (hfuel : bvhNodes s.bvh ≤ fuel) (r : List Nat) :
    decScene fuel (encScene s ++ r) = some (s, r) := by
  obtain ⟨hc, hol, hom, hbg, hbvh⟩ := h
  simp only [encScene, decScene, List.append_assoc,
    decCamera_encCamera s.camera hc,
    decList_encList encModel decModel s.objects (by omega)
      (fun m hm => decModel_encModel m (hom m hm)),
    decVec3_encVec3 s.background hbg,
    decBvh_encBvh s.bvh fuel hbvh hfuel,
    decBool_encBool s.use_bvh r]

lemma decMirrorPacket_encMirrorPacket (p : MirrorPacket) (h : p.wf) (fuel : Nat)
    (hfuel : packetBvhFuel p ≤ fuel) (r : List Nat) :
    decMirrorPacket fuel (encMirrorPacket p ++ r) = some (p, r) := by
  cases p with
  | Hello name port =>
    obtain ⟨hname, hport⟩ := h
    simp only [encMirrorPacket, decMirrorPacket, List.append_assoc,
      decVarint_encVarint 0 (by omega),
      decOpt_encOpt encString decString name
        (fun a ha r => decString_encString a (hname a ha).1 r),
      decVarint_encVarint port (by omega) r]
  | GossipPeers peers =>
    obtain ⟨hl, hw⟩ := h
    simp only [encMirrorPacket, decMirrorPacket, List.append_assoc,
      decVarint_encVarint 1 (by omega),
      decList_encList encSockAddr decSockAddr peers (by omega)
        (fun a ha r => decSockAddr_encSockAddr a (hw a ha) r) r]
  | SyncScene scene =>
    simp only [packetBvhFuel] at hfuel
    simp only [encMirrorPacket, decMirrorPacket, List.append_assoc,
      decVarint_encVarint 2 (by omega),
      decScene_encScene scene h fuel hfuel r]
  | RenderTileRequest tiles image_size spp =>
    obtain ⟨hl, ht, hw, hh, hs⟩ := h
    simp only [encMirrorPacket, decMirrorPacket, List.append_assoc,
      decVarint_encVarint 3 (by omega),
      decList_encList encTileRenderWork decTileRenderWork tiles (by omega)
        (fun a ha r => decTileRenderWork_encTileRenderWork a (ht a ha) r),
      decVarint_encVarint image_size.1 (by omega),
      decVarint_encVarint image_size.2 (by omega),
      decVarint_encVarint spp (by omega) r]
  | RenderTileResponse tiles rt =>
    obtain ⟨hl, ht, hr⟩ := h
    simp only [encMirrorPacket, decMirrorPacket, List.append_assoc,
      decVarint_encVarint 4 (by omega),
      decList_encList encImageBits decImageBits tiles (by omega)
        (fun a ha r => decImageBits_encImageBits a (ht a ha) r),
      decVarint_encVarint rt (by omega) r]

lemma beVal4_beBytes4 (n : Nat) (h : n < 2 ^ 32) :
    beVal4 (n / 2 ^ 24 % 256) (n / 2 ^ 16 % 256) (n / 2 ^ 8 % 256) (n % 256) = n := by
  unfold beVal4
  omega

/-- C4 (amended): for every packet whose bincode payload is shorter than
`2^32` bytes (within the reach of the `u32` length prefix), writing the
packet with `MirrorPacket::write` — the 4-byte big-endian length then the
payload — and reading the resulting byte stream back with
`MirrorPacket::read` yields `Ok` of the original packet.  The
well-formedness hypothesis says each numeric field fits its Rust machine
width, which holds by construction in the Rust types. -/
theorem mirror_packet_write_read_roundtrip (p : MirrorPacket) (hwf : p.wf)
    (hlen : (encMirrorPacket p).length < 2 ^ 32) :
    MirrorPacket.read (MirrorPacket.write p) = .ok p := by
  have hfuel : packetBvhFuel p ≤ (encMirrorPacket p).length := by
    cases p with
    | SyncScene scene =>
      have h1 := bvhNodes_le_encBvh scene.bvh
      simp only [packetBvhFuel, encMirrorPacket, encScene, List.append_assoc,
        List.length_append]
      omega
    | Hello name port => exact Nat.zero_le _
    | GossipPeers peers => exact Nat.zero_le _
    | RenderTileRequest tiles image_size spp => exact Nat.zero_le _
    | RenderTileResponse tiles rt => exact Nat.zero_le _
  unfold MirrorPacket.write MirrorPacket.read
  simp only [beBytes4, List.cons_append, List.nil_append]
  rw [beVal4_beBytes4 (encMirrorPacket p).length hlen]
  rw [if_neg (by omega)]
  rw [List.take_length]
  have hdec := decMirrorPacket_encMirrorPacket p hwf (encMirrorPacket p).length hfuel []
  rw [List.append_nil] at hdec
  rw [hdec]

/-- C4 witness: the round trip at the concrete packet
`Hello(Some "hi"), port 2020` (UTF-8 bytes `[104, 105]`). -/
theorem mirror_packet_write_read_roundtrip_witness :
    (MirrorPacket.wf (.Hello (some [104, 105]) 2020) ∧
      (encMirrorPacket (.Hello (some [104, 105]) 2020)).length < 2 ^ 32) ∧
    MirrorPacket.read (MirrorPacket.write (.Hello (some [104, 105]) 2020)) =
      .ok (.Hello (some [104, 105]) 2020) := by
  have hwf : MirrorPacket.wf (.Hello (some [104, 105]) 2020) := by
    constructor
    · intro s hs
      injection hs with hs
      subst hs
      exact ⟨by decide, by decide⟩
    · decide
  have hlen : (encMirrorPacket (.Hello (some [104, 105]) 2020)).length < 2 ^ 32 := by
    decide
  exact ⟨⟨hwf, hlen⟩,
    mirror_packet_write_read_roundtrip (.Hello (some [104, 105]) 2020) hwf hlen⟩

lemma encElems_singleton {A : Type} (f : A → List Nat) (a : A) :
    encElems f [a] = f a := by
  simp [encElems]

lemma encElems_replicate_zero_length :
    (encElems encF32 (List.replicate (2 ^ 30) (0 : Nat))).length = 2 ^ 32 := by
  unfold encElems
  rw [List.map_replicate]
  rw [show encF32 0 = [0, 0, 0, 0] from rfl]
  rw [List.length_flatten, List.map_replicate, List.sum_replicate]
  norm_num

lemma encElems_replicate_zero_head :
    ∃ tl, encElems encF32 (List.replicate (2 ^ 30) (0 : Nat)) = 0 :: tl := by
  unfold encElems
  rw [List.map_replicate]
  rw [show encF32 0 = [0, 0, 0, 0] from rfl]
  rw [show (2 ^ 30 : Nat) = 2 ^ 30 - 1 + 1 from by norm_num, List.replicate_succ,
    List.flatten_cons]
  exact ⟨_, rfl⟩

lemma encMirrorPacket_big :
    encMirrorPacket (.RenderTileResponse [⟨(2 ^ 30, 1), List.replicate (2 ^ 30) 0⟩] 0) =
      [4, 1, 252, 0, 0, 0, 64, 1, 252, 0, 0, 0, 64] ++
        (encElems encF32 (List.replicate (2 ^ 30) 0) ++ [0]) := by
  simp only [encMirrorPacket, encList]
  rw [encElems_singleton encImageBits]
  simp only [encImageBits, List.length_replicate, List.length_cons, List.length_nil]
  rw [show encVarint (2 ^ 30) = [252, 0, 0, 0, 64] from by decide]
  rw [show encVarint 4 = [4] from rfl, show encVarint (0 + 1) = [1] from rfl,
    show encVarint 0 = [0] from rfl]
  simp only [List.append_assoc, List.cons_append, List.nil_append]

/-- C4 counterexample: `MirrorPacket::write` casts the payload length to
`u32`, so a `RenderTileResponse` carrying one `2^30`-sample tile — a
`2^32 + 14`-byte payload — gets the truncated length prefix `14`;
`MirrorPacket::read` then decodes only the first 14 bytes, fails inside the
sample array, and returns a `Decode` error instead of the packet, refuting
the claim as stated for this well-formed packet. -/
theorem mirror_packet_write_read_truncation :
    MirrorPacket.wf
      (.RenderTileResponse [⟨(2 ^ 30, 1), List.replicate (2 ^ 30) 0⟩] 0) ∧
    MirrorPacket.read (MirrorPacket.write
      (.RenderTileResponse [⟨(2 ^ 30, 1), List.replicate (2 ^ 30) 0⟩] 0)) =
      .error .decodeFailed ∧
    MirrorPacket.read (MirrorPacket.write
      (.RenderTileResponse [⟨(2 ^ 30, 1), List.replicate (2 ^ 30) 0⟩] 0)) ≠
      .ok (.RenderTileResponse [⟨(2 ^ 30, 1), List.replicate (2 ^ 30) 0⟩] 0) := by
  have hwf : MirrorPacket.wf
      (.RenderTileResponse [⟨(2 ^ 30, 1), List.replicate (2 ^ 30) 0⟩] 0) := by
    refine ⟨(by norm_num : (1 : Nat) < 2 ^ 64), ?_, (by norm_num : (0 : Nat) < 2 ^ 128)⟩
    intro t ht
    rw [List.mem_singleton.mp ht]
    refine ⟨(by norm_num : (2 ^ 30 : Nat) < 2 ^ 64), (by norm_num : (1 : Nat) < 2 ^ 64),
      ?_, ?_⟩
    · rw [List.length_replicate]
      norm_num
    · intro d hd
      rw [List.eq_of_mem_replicate hd]
      norm_num
  have hlenser : (encMirrorPacket
      (.RenderTileResponse [⟨(2 ^ 30, 1), List.replicate (2 ^ 30) 0⟩] 0)).length =
        2 ^ 32 + 14 := by
    rw [encMirrorPacket_big]
    rw [List.length_append, List.length_append, encElems_replicate_zero_length]
    norm_num
  have hread : MirrorPacket.read (MirrorPacket.write
      (.RenderTileResponse [⟨(2 ^ 30, 1), List.replicate (2 ^ 30) 0⟩] 0)) =
      .error .decodeFailed := by
    simp only [MirrorPacket.write]
    rw [hlenser, show beBytes4 (2 ^ 32 + 14) = [0, 0, 0, 14] from by decide,
      encMirrorPacket_big]
    obtain ⟨tl, htl⟩ := encElems_replicate_zero_head
    have hlentl : tl.length = 2 ^ 32 - 1 := by
      have := encElems_replicate_zero_length
      rw [htl] at this
      simp only [List.length_cons] at this
      omega
    rw [htl]
    unfold MirrorPacket.read
    simp only [List.cons_append, List.nil_append]
    rw [show beVal4 0 0 0 14 = 14 from rfl]
    have hrestlen : (4 :: 1 :: 252 :: 0 :: 0 :: 0 :: 64 :: 1 :: 252 :: 0 :: 0 :: 0 :: 64 :: 0 ::
        (tl ++ [0]) : List Nat).length = 2 ^ 32 + 14 := by
      rw [show (4 :: 1 :: 252 :: 0 :: 0 :: 0 :: 64 :: 1 :: 252 :: 0 :: 0 :: 0 :: 64 :: 0 ::
          (tl ++ [0]) : List Nat) =
        ([4, 1, 252, 0, 0, 0, 64, 1, 252, 0, 0, 0, 64, 0] : List Nat) ++ (tl ++ [0]) from rfl]
      rw [List.length_append, List.length_append, hlentl]
      norm_num
    rw [if_neg (by rw [hrestlen]; omega)]
    have htake : List.take 14
        (4 :: 1 :: 252 :: 0 :: 0 :: 0 :: 64 :: 1 :: 252 :: 0 :: 0 :: 0 :: 64 :: 0 ::
          (tl ++ [0]) : List Nat) =
        [4, 1, 252, 0, 0, 0, 64, 1, 252, 0, 0, 0, 64, 0] := by
      rw [show (4 :: 1 :: 252 :: 0 :: 0 :: 0 :: 64 :: 1 :: 252 :: 0 :: 0 :: 0 :: 64 :: 0 ::
          (tl ++ [0]) : List Nat) =
        ([4, 1, 252, 0, 0, 0, 64, 1, 252, 0, 0, 0, 64, 0] : List Nat) ++ (tl ++ [0]) from rfl]
      rw [show (14 : Nat) =
        ([4, 1, 252, 0, 0, 0, 64, 1, 252, 0, 0, 0, 64, 0] : List Nat).length + 0 from by decide]
      rw [List.take_append]
      rw [List.take_zero, List.append_nil]
    rw [htake]
    rw [show decMirrorPacket
        ([4, 1, 252, 0, 0, 0, 64, 1, 252, 0, 0, 0, 64, 0] : List Nat).length
        [4, 1, 252, 0, 0, 0, 64, 1, 252, 0, 0, 0, 64, 0] = none from by decide]
  refine ⟨hwf, hread, ?_⟩
  rw [hread]
  intro hcontra
  exact Except.noConfusion hcontra

end Mirror
